import Mathlib

/-!
# Verification of the Bitespeed identity-reconciliation service

Shallow embedding of `src/main.py` (`identify_contact` and its helpers).

Modelling conventions:
* `Contact` mirrors the SQLAlchemy model (`id`, `phoneNumber`, `email`,
  `linkedId`, `linkPrecedence`, `createdAt`).  Timestamps are natural
  numbers.  The `updatedAt` column is maintained solely by database
  triggers (`onupdate=func.now()`) and carries no decision logic, so it
  is not modelled.
* The store is the list of rows in rowid (= ascending `id`) order plus
  the next auto-increment id.  `db.query(...).filter(col == v).all()`
  returns the rows in list order.
* Python truthiness of optional strings (`if email:`) is `truthy`:
  `None` and `""` are falsy.
* `dict.fromkeys`, `in`/`not in` on ORM objects compare by session
  identity, which (one object per row in the identity map) coincides
  with comparison by `id`; membership tests are modelled by `id`.
* Python `set` iteration order over strings is hash-dependent and not
  specified.  The response assembly therefore takes an oracle
  `iter : List String → List String` which is applied to the
  first-encounter-ordered list of the set's distinct elements; a
  legitimate oracle returns a permutation of its input (`permOracle`).
  Set membership tests (`in`) are order-independent and are modelled
  directly on lists.
* The sessionmaker has `autoflush=False`, so the lazy relationship
  loads (`contact.secondary_contacts`, `sec.primary_contact`) executed
  before `db.commit()` see the pre-request database state; attribute
  reads on the returned objects see the in-session mutated state.
  Mutated rows are modelled by `mergeStore` applied to the pre-request
  list, and the `contacts_to_update` list by the mutated values of the
  demoted primaries and their re-linked children (whose `email`,
  `phoneNumber` fields — the only ones read from that list — are
  unaffected by the mutation).
-/

inductive LinkPrecedence where
  | primary
  | secondary
deriving DecidableEq, Repr

/-- A row of the `contact` table (`class Contact` in `src/main.py`). -/
structure Contact where
  id : Nat
  phoneNumber : Option String
  email : Option String
  linkedId : Option Nat
  linkPrecedence : LinkPrecedence
  createdAt : Nat
deriving DecidableEq, Repr

/-- The database: rows in rowid order, plus the next auto-increment id. -/
structure Store where
  contacts : List Contact
  nextId : Nat
deriving DecidableEq, Repr

/-- The body of the `/identify` response (`ContactResponseData`). -/
structure Response where
  primaryId : Nat
  emails : List String
  phones : List String
  secondaryIds : List Nat
deriving DecidableEq, Repr

inductive IdError where
  | validation
  | internal
deriving DecidableEq, Repr

/-- One request to `/identify` (`IdentifyRequest` plus the commit time). -/
structure Req where
  email : Option String
  phoneNumber : Option String
  now : Nat
deriving DecidableEq, Repr

/-- Python truthiness of an optional string: `None` and `""` are falsy. -/
def truthy : Option String → Bool
  | none => false
  | some v => decide (v ≠ "")

/-- `[v] if v else []` — used for the create-primary response lists. -/
def listIf : Option String → List String
  | none => []
  | some v => if v = "" then [] else [v]

/-- The matcher: rows whose `email` equals the given email, followed by
rows whose `phoneNumber` equals the given phone (each query only issued
for a truthy argument), as in lines 113–117 of `src/main.py`. -/
def findMatches (cs : List Contact) (email phoneNumber : Option String) :
    List Contact :=
  (if truthy email then cs.filter (fun c => decide (c.email = email)) else [])
    ++ (if truthy phoneNumber then
          cs.filter (fun c => decide (c.phoneNumber = phoneNumber)) else [])

/-- `dict.fromkeys`: keep the first occurrence of each id. -/
def dedupByIdAux (seen : List Nat) : List Contact → List Contact
  | [] => []
  | c :: cs =>
      if c.id ∈ seen then dedupByIdAux seen cs
      else c :: dedupByIdAux (c.id :: seen) cs

def dedupById (l : List Contact) : List Contact := dedupByIdAux [] l

/-- First-occurrence deduplication (the distinct elements of a Python
set, listed in the order they were first inserted). -/
def dedupKeep {α : Type} [DecidableEq α] (seen : List α) : List α → List α
  | [] => []
  | x :: xs =>
      if x ∈ seen then dedupKeep seen xs
      else x :: dedupKeep (x :: seen) xs

def dedupStr (l : List String) : List String := dedupKeep [] l

def dedupNat (l : List Nat) : List Nat := dedupKeep [] l

/-- Stable insertion used to model Python's stable `sorted(key=createdAt)`:
the new element goes after every element with `createdAt ≤` its own. -/
def insertByCreated (c : Contact) : List Contact → List Contact
  | [] => [c]
  | x :: xs =>
      if c.createdAt < x.createdAt then c :: x :: xs
      else x :: insertByCreated c xs

/-- Stable sort by `createdAt` ascending (Python `sorted` is stable). -/
def sortByCreated (l : List Contact) : List Contact :=
  l.foldl (fun acc c => insertByCreated c acc) []

def insertNat (n : Nat) : List Nat → List Nat
  | [] => [n]
  | x :: xs => if n ≤ x then n :: x :: xs else x :: insertNat n xs

/-- Ascending sort of naturals (for `sorted(list(set(secondary_ids)))`). -/
def sortNat (l : List Nat) : List Nat :=
  l.foldl (fun acc n => insertNat n acc) []

/-- Row lookup by primary key. -/
def getById (cs : List Contact) (i : Nat) : Option Contact :=
  cs.find? (fun c => decide (c.id = i))

/-- The `primary_contact` relationship: the row `linkedId` points to. -/
def lookupParent (cs : List Contact) : Option Nat → Option Contact
  | none => none
  | some l => getById cs l

def isPrimaryB (c : Contact) : Bool :=
  decide (c.linkPrecedence = LinkPrecedence.primary)

def isSecondaryB (c : Contact) : Bool :=
  decide (c.linkPrecedence = LinkPrecedence.secondary)

/-- Lines 153–155: walk the matched secondaries, appending each one's
`primary_contact` (when present) unless a row with that id is already in
the accumulated list. -/
def tracePrimaries (cs : List Contact) :
    List Contact → List Contact → List Contact
  | acc, [] => acc
  | acc, sc :: rest =>
      match lookupParent cs sc.linkedId with
      | some pc =>
          if acc.any (fun q => decide (q.id = pc.id)) then
            tracePrimaries cs acc rest
          else tracePrimaries cs (acc ++ [pc]) rest
      | none => tracePrimaries cs acc rest

/-- The group resolver, lines 146–161: matched primaries sorted stably by
`createdAt`, extended with the matched secondaries' primaries, then
deduplicated by id and stably re-sorted by `createdAt`. -/
def resolvePrimaries (cs : List Contact) (uniq : List Contact) :
    List Contact :=
  sortByCreated (dedupById
    (tracePrimaries cs (sortByCreated (uniq.filter isPrimaryB))
      (uniq.filter isSecondaryB)))

/-- Demotion of an absorbed primary (lines 175–176). -/
def demote (c : Contact) (mainId : Nat) : Contact :=
  { c with linkPrecedence := LinkPrecedence.secondary, linkedId := some mainId }

/-- Re-pointing of an absorbed primary's child (line 181). -/
def relink (c : Contact) (mainId : Nat) : Contact :=
  { c with linkedId := some mainId }

/-- The `secondary_contacts` relationship: rows whose `linkedId` is the
given primary id, in rowid order. -/
def childrenOf (cs : List Contact) (pid : Nat) : List Contact :=
  cs.filter (fun c => decide (c.linkedId = some pid))

/-- The in-session state of one row after the merge loop of lines
172–184 has run: absorbed primaries are demoted, their children are
re-pointed to the surviving primary, every other row is untouched. -/
def mergeOne (absorbedIds : List Nat) (mainId : Nat) (c : Contact) : Contact :=
  if c.id ∈ absorbedIds then demote c mainId
  else match c.linkedId with
       | some l => if l ∈ absorbedIds then relink c mainId else c
       | none => c

def mergeStore (cs : List Contact) (absorbedIds : List Nat) (mainId : Nat) :
    List Contact :=
  cs.map (mergeOne absorbedIds mainId)

/-- `contacts_to_update` (lines 171–182), as the mutated values: for each
absorbed primary, its demoted value followed by its (pre-request)
children re-pointed to the surviving primary. -/
def contactsToUpdateOf (cs : List Contact) (main : Contact)
    (rest : List Contact) : List Contact :=
  rest.foldl
    (fun acc p =>
      acc ++ demote p main.id ::
        (childrenOf cs p.id).map (fun c => relink c main.id)) []

/-- `{c.email for c in l if c.email}` — contents of the email set, in
encounter order (membership tests only care about the contents). -/
def emailsOf (l : List Contact) : List String :=
  (l.filterMap (·.email)).filter (fun v => decide (v ≠ ""))

def phonesOf (l : List Contact) : List String :=
  (l.filterMap (·.phoneNumber)).filter (fun v => decide (v ≠ ""))

/-- Lines 232–241: the primary's own value first (when truthy), then the
iterated set values that differ from it (`e != main.email` is `True`
whenever `main.email` is `None`). -/
def assembleList (mainVal : Option String) (vals : List String) :
    List String :=
  listIf mainVal ++ vals.filter (fun x => decide (some x ≠ mainVal))

/-- Scenario 1 (lines 122–140): no match, create a fresh primary. -/
def createOutcome (s : Store) (now : Nat) (email phoneNumber : Option String) :
    Store × Response :=
  let nc : Contact :=
    ⟨s.nextId, phoneNumber, email, none, LinkPrecedence.primary, now⟩
  (⟨s.contacts ++ [nc], s.nextId + 1⟩,
   ⟨s.nextId, listIf email, listIf phoneNumber, []⟩)

/-- `all_related_contacts` (line 190): the target primary, its
pre-request children, and the rows mutated by the merge loop. -/
def relatedOf (cs : List Contact) (main : Contact) (rest : List Contact) :
    List Contact :=
  main :: (childrenOf cs main.id ++ contactsToUpdateOf cs main rest)

/-- `new_email or new_phone` (lines 196–198): does the observation carry
a field value absent from the identity group? -/
def newInfoB (s : Store) (email phoneNumber : Option String)
    (main : Contact) (rest : List Contact) : Bool :=
  (truthy email &&
    !((emailsOf (relatedOf s.contacts main rest)).contains (email.getD "")))
  || (truthy phoneNumber &&
    !((phonesOf (relatedOf s.contacts main rest)).contains (phoneNumber.getD "")))

/-- The row a new-information observation inserts (lines 200–206). -/
def newSecondary (s : Store) (now : Nat) (email phoneNumber : Option String)
    (mainId : Nat) : Contact :=
  ⟨s.nextId, phoneNumber, email, some mainId, LinkPrecedence.secondary, now⟩

/-- The committed rows after scenarios 2/3 (merge mutations plus the
optional new secondary). -/
def finalContacts (s : Store) (now : Nat) (email phoneNumber : Option String)
    (main : Contact) (rest : List Contact) : List Contact :=
  if newInfoB s email phoneNumber main rest then
    mergeStore s.contacts (rest.map (·.id)) main.id
      ++ [newSecondary s now email phoneNumber main.id]
  else mergeStore s.contacts (rest.map (·.id)) main.id

def finalNextId (s : Store) (email phoneNumber : Option String)
    (main : Contact) (rest : List Contact) : Nat :=
  if newInfoB s email phoneNumber main rest then s.nextId + 1 else s.nextId

/-- The view assembler (lines 213–251), reading the refreshed store. -/
def viewResponse (iter : List String → List String) (cs2 : List Contact)
    (main : Contact) : Response :=
  let mainF := (getById cs2 main.id).getD main
  let finalGroup := mainF :: childrenOf cs2 main.id
  ⟨mainF.id,
   assembleList mainF.email (iter (dedupStr (emailsOf finalGroup))),
   assembleList mainF.phoneNumber (iter (dedupStr (phonesOf finalGroup))),
   sortNat (dedupNat ((finalGroup.filter isSecondaryB).map (·.id)))⟩

/-- Scenarios 2 and 3 (lines 142–253): merge the resolved groups (a no-op
when only one group was resolved), create a new secondary when the
observation carries a new field value, and assemble the response from
the refreshed store state. -/
def groupOutcome (iter : List String → List String) (s : Store) (now : Nat)
    (email phoneNumber : Option String) (main : Contact)
    (rest : List Contact) : Store × Response :=
  (⟨finalContacts s now email phoneNumber main rest,
    finalNextId s email phoneNumber main rest⟩,
   viewResponse iter (finalContacts s now email phoneNumber main rest) main)

/-- The whole `/identify` handler (`identify_contact`, lines 94–253).
`iter` is the set-iteration oracle described in the module docstring;
`now` the commit timestamp.  `IdError.validation` models the 400
response, `IdError.internal` the `IndexError` a `primary_contacts[0]`
on an empty resolver output would raise. -/
def identify (iter : List String → List String) (s : Store) (now : Nat)
    (email phoneNumber : Option String) : Except IdError (Store × Response) :=
  if truthy email || truthy phoneNumber then
    if dedupById (findMatches s.contacts email phoneNumber) = [] then
      Except.ok (createOutcome s now email phoneNumber)
    else
      match resolvePrimaries s.contacts
          (dedupById (findMatches s.contacts email phoneNumber)) with
      | [] => Except.error IdError.internal
      | main :: rest =>
          Except.ok (groupOutcome iter s now email phoneNumber main rest)
  else Except.error IdError.validation

/-- The store state after one request: the committed state on success,
the rolled-back (unchanged) state on an error response. -/
def stepStore (iter : List String → List String) (s : Store) (r : Req) :
    Store :=
  match identify iter s r.now r.email r.phoneNumber with
  | Except.ok (s', _) => s'
  | Except.error _ => s

def runSeq (iter : List String → List String) (s : Store) :
    List Req → Store
  | [] => s
  | r :: rs => runSeq iter (stepStore iter s r) rs

/-- Distinct primary keys. -/
def NodupIds (cs : List Contact) : Prop := (cs.map (·.id)).Nodup

instance (cs : List Contact) : Decidable (NodupIds cs) := by
  unfold NodupIds; infer_instance

/-- Well-formedness of the database: ids are distinct and below the next
auto-increment id. -/
def WF (s : Store) : Prop :=
  NodupIds s.contacts ∧ ∀ c ∈ s.contacts, c.id < s.nextId

instance (s : Store) : Decidable (WF s) := by
  unfold WF; infer_instance

/-- The data-model invariants 1–3 of the spec, on a row list: a primary
has no `linkedId`, a secondary's `linkedId` points at an existing
primary row (link depth exactly one). -/
def InvC (cs : List Contact) : Prop :=
  ∀ c ∈ cs,
    (c.linkPrecedence = LinkPrecedence.primary → c.linkedId = none) ∧
    (c.linkPrecedence = LinkPrecedence.secondary →
      ∃ p ∈ cs, some p.id = c.linkedId ∧
        p.linkPrecedence = LinkPrecedence.primary)

instance (cs : List Contact) : Decidable (InvC cs) := by
  unfold InvC; infer_instance

/-- Invariants 1–3 on a store. -/
def LinkInv (s : Store) : Prop := InvC s.contacts

instance (s : Store) : Decidable (LinkInv s) := by unfold LinkInv; infer_instance

/-- The owning primary of a matched record, per the spec's Group
Resolver contract: itself when primary, the record `linkedId` points to
when secondary. -/
def ownerId (c : Contact) : Option Nat :=
  if c.linkPrecedence = LinkPrecedence.primary then some c.id else c.linkedId

/-- A legitimate set-iteration oracle merely permutes the set's
elements. -/
def permOracle (f : List String → List String) : Prop :=
  ∀ l : List String, (f l).Perm l

/-- The View Assembler's email list as the spec words it: the group
members' truthy email values, primary first, then the secondaries in
ascending-id scan order, first occurrence kept, no duplicates. -/
def specOrderedEmails (primaryC : Contact) (secsAsc : List Contact) :
    List String :=
  dedupStr (emailsOf (primaryC :: secsAsc))

/-! ## Basic lemmas -/

theorem truthy_iff {o : Option String} :
    truthy o = true ↔ ∃ v, o = some v ∧ v ≠ "" := by
  cases o with
  | none => simp [truthy]
  | some v => simp [truthy]

theorem listIf_of_truthy {v : String} (h : v ≠ "") :
    listIf (some v) = [v] := by
  simp [listIf, h]

/-! ## Deduplication lemmas -/

theorem mem_dedupByIdAux {a : Contact} :
    ∀ {l : List Contact} {seen : List Nat}, a ∈ dedupByIdAux seen l → a ∈ l := by
  intro l
  induction l with
  | nil => intro seen h; simp [dedupByIdAux] at h
  | cons c cs ih =>
      intro seen h
      unfold dedupByIdAux at h
      by_cases hc : c.id ∈ seen
      · rw [if_pos hc] at h
        exact List.mem_cons_of_mem _ (ih h)
      · rw [if_neg hc] at h
        rcases List.mem_cons.1 h with rfl | h
        · exact List.mem_cons_self _ _
        · exact List.mem_cons_of_mem _ (ih h)

theorem mem_dedupById {a : Contact} {l : List Contact}
    (h : a ∈ dedupById l) : a ∈ l :=
  mem_dedupByIdAux h

theorem dedupByIdAux_nodup :
    ∀ (l : List Contact) (seen : List Nat),
      ((dedupByIdAux seen l).map (·.id)).Nodup ∧
        ∀ a ∈ dedupByIdAux seen l, a.id ∉ seen := by
  intro l
  induction l with
  | nil => intro seen; simp [dedupByIdAux]
  | cons c cs ih =>
      intro seen
      unfold dedupByIdAux
      by_cases hc : c.id ∈ seen
      · rw [if_pos hc]; exact ih seen
      · rw [if_neg hc]
        obtain ⟨h1, h2⟩ := ih (c.id :: seen)
        refine ⟨?_, ?_⟩
        · rw [List.map_cons, List.nodup_cons]
          refine ⟨?_, h1⟩
          intro hmem
          obtain ⟨b, hb, hbid⟩ := List.mem_map.1 hmem
          exact (h2 b hb) (by simp [hbid])
        · intro a ha
          rcases List.mem_cons.1 ha with rfl | ha
          · exact hc
          · intro hmem
            exact (h2 a ha) (List.mem_cons_of_mem _ hmem)

theorem dedupById_nodupIds (l : List Contact) : NodupIds (dedupById l) :=
  (dedupByIdAux_nodup l []).1

theorem dedupByIdAux_covers {a : Contact} :
    ∀ {l : List Contact} {seen : List Nat}, a ∈ l → a.id ∉ seen →
      ∃ b ∈ dedupByIdAux seen l, b.id = a.id := by
  intro l
  induction l with
  | nil => intro seen h; simp at h
  | cons c cs ih =>
      intro seen ha hseen
      unfold dedupByIdAux
      rcases List.mem_cons.1 ha with rfl | ha
      · rw [if_neg hseen]
        exact ⟨a, List.mem_cons_self _ _, rfl⟩
      · by_cases hc : c.id ∈ seen
        · rw [if_pos hc]
          exact ih ha hseen
        · rw [if_neg hc]
          by_cases hid : a.id = c.id
          · exact ⟨c, List.mem_cons_self _ _, hid.symm⟩
          · obtain ⟨b, hb, hbid⟩ := ih ha (fun h => by
              rcases List.mem_cons.1 h with h | h
              · exact hid h
              · exact hseen h)
            exact ⟨b, List.mem_cons_of_mem _ hb, hbid⟩

theorem dedupById_covers {a : Contact} {l : List Contact} (h : a ∈ l) :
    ∃ b ∈ dedupById l, b.id = a.id :=
  dedupByIdAux_covers h (by simp)

theorem mem_dedupKeep {α : Type} [DecidableEq α] {x : α} :
    ∀ {l seen : List α}, x ∈ dedupKeep seen l ↔ x ∈ l ∧ x ∉ seen := by
  intro l
  induction l with
  | nil => intro seen; simp [dedupKeep]
  | cons y ys ih =>
      intro seen
      unfold dedupKeep
      by_cases hy : y ∈ seen
      · rw [if_pos hy, ih, List.mem_cons]
        constructor
        · rintro ⟨h1, h2⟩; exact ⟨Or.inr h1, h2⟩
        · rintro ⟨h1 | h1, h2⟩
          · exact absurd (h1 ▸ hy) h2
          · exact ⟨h1, h2⟩
      · rw [if_neg hy]
        simp only [List.mem_cons, ih]
        constructor
        · rintro (rfl | ⟨h1, h2⟩)
          · exact ⟨Or.inl rfl, hy⟩
          · exact ⟨Or.inr h1, fun hs => h2 (Or.inr hs)⟩
        · rintro ⟨rfl | h1, h2⟩
          · exact Or.inl rfl
          · by_cases hxy : x = y
            · exact Or.inl hxy
            · refine Or.inr ⟨h1, ?_⟩
              rintro (h | h)
              · exact hxy h
              · exact h2 h

theorem dedupKeep_nodup {α : Type} [DecidableEq α] :
    ∀ (l seen : List α), (dedupKeep seen l).Nodup := by
  intro l
  induction l with
  | nil => intro seen; simp [dedupKeep]
  | cons y ys ih =>
      intro seen
      unfold dedupKeep
      by_cases hy : y ∈ seen
      · rw [if_pos hy]; exact ih seen
      · rw [if_neg hy, List.nodup_cons]
        refine ⟨fun h => ?_, ih _⟩
        rw [mem_dedupKeep] at h
        exact h.2 (List.mem_cons_self _ _)

theorem mem_dedupStr {x : String} {l : List String} :
    x ∈ dedupStr l ↔ x ∈ l := by
  simp [dedupStr, mem_dedupKeep]

theorem dedupStr_nodup (l : List String) : (dedupStr l).Nodup :=
  dedupKeep_nodup l []

/-! ## Stable sort lemmas -/

theorem insertByCreated_perm (c : Contact) :
    ∀ l : List Contact, (insertByCreated c l).Perm (c :: l) := by
  intro l
  induction l with
  | nil => simp [insertByCreated]
  | cons x xs ih =>
      unfold insertByCreated
      by_cases h : c.createdAt < x.createdAt
      · rw [if_pos h]
      · rw [if_neg h]
        exact (ih.cons x).trans (List.Perm.swap c x xs)

theorem sortByCreated_perm (l : List Contact) : (sortByCreated l).Perm l := by
  suffices h : ∀ (l acc : List Contact),
      (l.foldl (fun acc c => insertByCreated c acc) acc).Perm (acc ++ l) by
    simpa using h l []
  intro l
  induction l with
  | nil => intro acc; simp
  | cons c cs ih =>
      intro acc
      refine (ih (insertByCreated c acc)).trans ?_
      have h1 : (insertByCreated c acc ++ cs).Perm (c :: (acc ++ cs)) :=
        (insertByCreated_perm c acc).append_right cs
      exact h1.trans List.perm_middle.symm

theorem mem_sortByCreated {a : Contact} {l : List Contact} :
    a ∈ sortByCreated l ↔ a ∈ l :=
  (sortByCreated_perm l).mem_iff

theorem insertByCreated_pairwise {c : Contact} {l : List Contact}
    (h : l.Pairwise (fun a b => a.createdAt ≤ b.createdAt)) :
    (insertByCreated c l).Pairwise (fun a b => a.createdAt ≤ b.createdAt) := by
  induction l with
  | nil => simp [insertByCreated]
  | cons x xs ih =>
      rw [List.pairwise_cons] at h
      obtain ⟨hx, hxs⟩ := h
      unfold insertByCreated
      by_cases hlt : c.createdAt < x.createdAt
      · rw [if_pos hlt]
        refine List.Pairwise.cons ?_ (List.Pairwise.cons hx hxs)
        intro b hb
        rcases List.mem_cons.1 hb with rfl | hb
        · exact Nat.le_of_lt hlt
        · exact Nat.le_trans (Nat.le_of_lt hlt) (hx b hb)
      · rw [if_neg hlt]
        refine List.Pairwise.cons ?_ (ih hxs)
        intro b hb
        have hb' := (insertByCreated_perm c xs).mem_iff.1 hb
        rcases List.mem_cons.1 hb' with rfl | hb'
        · exact Nat.le_of_not_lt hlt
        · exact hx b hb'

theorem sortByCreated_pairwise (l : List Contact) :
    (sortByCreated l).Pairwise (fun a b => a.createdAt ≤ b.createdAt) := by
  suffices h : ∀ (l acc : List Contact),
      acc.Pairwise (fun a b => a.createdAt ≤ b.createdAt) →
      (l.foldl (fun acc c => insertByCreated c acc) acc).Pairwise
        (fun a b => a.createdAt ≤ b.createdAt) by
    exact h l [] (by simp)
  intro l
  induction l with
  | nil => intro acc hacc; simpa using hacc
  | cons c cs ih =>
      intro acc hacc
      exact ih _ (insertByCreated_pairwise hacc)

/-! ## Lookup lemmas -/

theorem getById_eq_some {cs : List Contact} {i : Nat} {c : Contact}
    (h : getById cs i = some c) : c ∈ cs ∧ c.id = i := by
  refine ⟨List.mem_of_find?_eq_some h, ?_⟩
  have := List.find?_some h
  simpa using this

theorem getById_mem_nodup {cs : List Contact} (hnd : NodupIds cs)
    {c : Contact} (hc : c ∈ cs) : getById cs c.id = some c := by
  induction cs with
  | nil => simp at hc
  | cons x xs ih =>
      unfold NodupIds at hnd
      rw [List.map_cons, List.nodup_cons] at hnd
      rcases List.mem_cons.1 hc with rfl | hc
      · simp [getById, List.find?]
      · have hne : ¬ (x.id = c.id) := by
          intro h
          exact hnd.1 (h ▸ List.mem_map.2 ⟨c, hc, rfl⟩)
        have := ih hnd.2 hc
        simp only [getById, List.find?] at this ⊢
        simp [hne, this]

theorem getById_fresh {cs : List Contact} {n : Nat}
    (h : ∀ c ∈ cs, c.id < n) : getById cs n = none := by
  rw [getById, List.find?_eq_none]
  intro c hc
  simp only [decide_eq_true_eq]
  exact Nat.ne_of_lt (h c hc)

theorem getById_append_of_some {cs ds : List Contact} {i : Nat} {c : Contact}
    (h : getById cs i = some c) : getById (cs ++ ds) i = some c := by
  induction cs with
  | nil => simp [getById, List.find?] at h
  | cons x xs ih =>
      simp only [getById, List.find?, List.cons_append] at h ⊢
      cases hx : decide (x.id = i) with
      | true => rw [hx] at h; simpa [hx] using h
      | false => rw [hx] at h; exact ih h

theorem getById_append_of_none {cs ds : List Contact} {i : Nat}
    (h : getById cs i = none) : getById (cs ++ ds) i = getById ds i := by
  induction cs with
  | nil => simp
  | cons x xs ih =>
      simp only [getById, List.find?, List.cons_append] at h ⊢
      cases hx : decide (x.id = i) with
      | true => rw [hx] at h; simp at h
      | false => rw [hx] at h; exact ih h

/-! ## Merge-loop lemmas -/

theorem mergeOne_cases (A : List Nat) (m : Nat) (c : Contact) :
    mergeOne A m c = c ∨ mergeOne A m c = demote c m ∨
      mergeOne A m c = relink c m := by
  unfold mergeOne
  split
  · exact Or.inr (Or.inl rfl)
  · split
    · split
      · exact Or.inr (Or.inr rfl)
      · exact Or.inl rfl
    · exact Or.inl rfl

theorem mergeOne_id (A : List Nat) (m : Nat) (c : Contact) :
    (mergeOne A m c).id = c.id := by
  rcases mergeOne_cases A m c with h | h | h <;> rw [h] <;> rfl

theorem mergeOne_email (A : List Nat) (m : Nat) (c : Contact) :
    (mergeOne A m c).email = c.email := by
  rcases mergeOne_cases A m c with h | h | h <;> rw [h] <;> rfl

theorem mergeOne_phoneNumber (A : List Nat) (m : Nat) (c : Contact) :
    (mergeOne A m c).phoneNumber = c.phoneNumber := by
  rcases mergeOne_cases A m c with h | h | h <;> rw [h] <;> rfl

theorem mergeOne_createdAt (A : List Nat) (m : Nat) (c : Contact) :
    (mergeOne A m c).createdAt = c.createdAt := by
  rcases mergeOne_cases A m c with h | h | h <;> rw [h] <;> rfl

theorem mergeOne_of_absorbed {A : List Nat} {m : Nat} {c : Contact}
    (h : c.id ∈ A) : mergeOne A m c = demote c m := by
  unfold mergeOne; rw [if_pos h]

theorem mergeOne_of_child {A : List Nat} {m : Nat} {c : Contact} {l : Nat}
    (h : c.id ∉ A) (hl : c.linkedId = some l) (hA : l ∈ A) :
    mergeOne A m c = relink c m := by
  unfold mergeOne
  rw [if_neg h, hl]
  show (if l ∈ A then relink c m else c) = relink c m
  rw [if_pos hA]

theorem mergeOne_untouched {A : List Nat} {m : Nat} {c : Contact}
    (h : c.id ∉ A) (hl : ∀ l, c.linkedId = some l → l ∉ A) :
    mergeOne A m c = c := by
  unfold mergeOne
  rw [if_neg h]
  cases hc : c.linkedId with
  | none => rfl
  | some l =>
      show (if l ∈ A then relink c m else c) = c
      rw [if_neg (hl l hc)]

theorem mergeOne_secondary_stays {A : List Nat} {m : Nat} {c : Contact}
    (h : c.linkPrecedence = LinkPrecedence.secondary) :
    (mergeOne A m c).linkPrecedence = LinkPrecedence.secondary := by
  rcases mergeOne_cases A m c with hc | hc | hc <;> rw [hc]
  · exact h
  · rfl
  · exact h

theorem mergeOne_of_primary_none {A : List Nat} {m : Nat} {c : Contact}
    (h : c.id ∉ A) (hl : c.linkedId = none) : mergeOne A m c = c :=
  mergeOne_untouched h (fun l hc => by rw [hl] at hc; cases hc)

theorem mergeStore_ids (cs : List Contact) (A : List Nat) (m : Nat) :
    (mergeStore cs A m).map (·.id) = cs.map (·.id) := by
  unfold mergeStore
  rw [List.map_map]
  exact List.map_congr_left (fun c _ => mergeOne_id A m c)

theorem mergeStore_nodupIds {cs : List Contact} (h : NodupIds cs)
    (A : List Nat) (m : Nat) : NodupIds (mergeStore cs A m) := by
  unfold NodupIds
  rw [mergeStore_ids]
  exact h

theorem getById_mergeStore (cs : List Contact) (A : List Nat) (m : Nat)
    (i : Nat) :
    getById (mergeStore cs A m) i = (getById cs i).map (mergeOne A m) := by
  induction cs with
  | nil => simp [mergeStore, getById, List.find?]
  | cons x xs ih =>
      simp only [mergeStore, List.map_cons, getById, List.find?] at ih ⊢
      rw [mergeOne_id]
      cases hx : decide (x.id = i) with
      | true => simp
      | false => exact ih

theorem mergeStore_nil (cs : List Contact) (m : Nat) :
    mergeStore cs [] m = cs := by
  unfold mergeStore
  have h : ∀ c ∈ cs, mergeOne [] m c = id c := fun c _ =>
    mergeOne_untouched (by simp) (fun l _ => by simp)
  rw [List.map_congr_left h, List.map_id]

theorem mem_mergeStore {cs : List Contact} {A : List Nat} {m : Nat}
    {c : Contact} (h : c ∈ cs) : mergeOne A m c ∈ mergeStore cs A m :=
  List.mem_map.2 ⟨c, h, rfl⟩

/-! ## Matcher and resolver lemmas -/

theorem mem_findMatches {cs : List Contact} {e p : Option String}
    {c : Contact} (h : c ∈ findMatches cs e p) : c ∈ cs := by
  unfold findMatches at h
  rcases List.mem_append.1 h with h | h
  · by_cases he : truthy e
    · rw [if_pos he] at h; exact (List.mem_filter.1 h).1
    · rw [if_neg he] at h; cases h
  · by_cases hp : truthy p
    · rw [if_pos hp] at h; exact (List.mem_filter.1 h).1
    · rw [if_neg hp] at h; cases h

theorem tracePrimaries_cons_some {cs acc rest : List Contact} {sc pc : Contact}
    (hp : lookupParent cs sc.linkedId = some pc) :
    tracePrimaries cs acc (sc :: rest) =
      if acc.any (fun q => decide (q.id = pc.id)) then
        tracePrimaries cs acc rest
      else tracePrimaries cs (acc ++ [pc]) rest := by
  conv_lhs => unfold tracePrimaries
  rw [hp]

theorem tracePrimaries_cons_none {cs acc rest : List Contact} {sc : Contact}
    (hp : lookupParent cs sc.linkedId = none) :
    tracePrimaries cs acc (sc :: rest) = tracePrimaries cs acc rest := by
  conv_lhs => unfold tracePrimaries
  rw [hp]

theorem tracePrimaries_acc_sub {cs : List Contact} {a : Contact} :
    ∀ {secs acc : List Contact}, a ∈ acc → a ∈ tracePrimaries cs acc secs := by
  intro secs
  induction secs with
  | nil => intro acc h; exact h
  | cons sc rest ih =>
      intro acc h
      cases hp : lookupParent cs sc.linkedId with
      | none => rw [tracePrimaries_cons_none hp]; exact ih h
      | some pc =>
          rw [tracePrimaries_cons_some hp]
          by_cases hin : acc.any (fun q => decide (q.id = pc.id))
          · rw [if_pos hin]; exact ih h
          · rw [if_neg hin]; exact ih (List.mem_append.2 (Or.inl h))

theorem tracePrimaries_mem {cs : List Contact} {a : Contact} :
    ∀ {secs acc : List Contact}, a ∈ tracePrimaries cs acc secs →
      a ∈ acc ∨ ∃ sc ∈ secs, lookupParent cs sc.linkedId = some a := by
  intro secs
  induction secs with
  | nil => intro acc h; exact Or.inl h
  | cons sc rest ih =>
      intro acc h
      cases hp : lookupParent cs sc.linkedId with
      | none =>
          rw [tracePrimaries_cons_none hp] at h
          rcases ih h with h | ⟨sc', h1, h2⟩
          · exact Or.inl h
          · exact Or.inr ⟨sc', List.mem_cons_of_mem _ h1, h2⟩
      | some pc =>
          rw [tracePrimaries_cons_some hp] at h
          by_cases hin : acc.any (fun q => decide (q.id = pc.id))
          · rw [if_pos hin] at h
            rcases ih h with h | ⟨sc', h1, h2⟩
            · exact Or.inl h
            · exact Or.inr ⟨sc', List.mem_cons_of_mem _ h1, h2⟩
          · rw [if_neg hin] at h
            rcases ih h with h | ⟨sc', h1, h2⟩
            · rcases List.mem_append.1 h with h | h
              · exact Or.inl h
              · rcases List.mem_singleton.1 h with rfl
                exact Or.inr ⟨sc, List.mem_cons_self _ _, hp⟩
            · exact Or.inr ⟨sc', List.mem_cons_of_mem _ h1, h2⟩

theorem tracePrimaries_covers {cs : List Contact} {pc : Contact} :
    ∀ {secs acc : List Contact} {sc : Contact}, sc ∈ secs →
      lookupParent cs sc.linkedId = some pc →
      ∃ q ∈ tracePrimaries cs acc secs, q.id = pc.id := by
  intro secs
  induction secs with
  | nil => intro acc sc h; simp at h
  | cons sc0 rest ih =>
      intro acc sc hsc hlp
      rcases List.mem_cons.1 hsc with rfl | hsc
      · rw [tracePrimaries_cons_some hlp]
        by_cases hin : acc.any (fun q => decide (q.id = pc.id))
        · rw [if_pos hin]
          obtain ⟨q, hq, hqid⟩ := List.any_eq_true.1 hin
          exact ⟨q, tracePrimaries_acc_sub hq, by simpa using hqid⟩
        · rw [if_neg hin]
          exact ⟨pc, tracePrimaries_acc_sub
            (List.mem_append.2 (Or.inr (List.mem_singleton.2 rfl))), rfl⟩
      · cases hp : lookupParent cs sc0.linkedId with
        | none => rw [tracePrimaries_cons_none hp]; exact ih hsc hlp
        | some pc0 =>
            rw [tracePrimaries_cons_some hp]
            by_cases hin : acc.any (fun q => decide (q.id = pc0.id))
            · rw [if_pos hin]; exact ih hsc hlp
            · rw [if_neg hin]; exact ih hsc hlp

theorem nodupIds_inj {cs : List Contact} (hnd : NodupIds cs) {a b : Contact}
    (ha : a ∈ cs) (hb : b ∈ cs) (h : a.id = b.id) : a = b :=
  List.inj_on_of_nodup_map hnd ha hb h

theorem resolvePrimaries_nodupIds (cs uniq : List Contact) :
    NodupIds (resolvePrimaries cs uniq) := by
  unfold resolvePrimaries NodupIds
  have hperm := sortByCreated_perm (dedupById
    (tracePrimaries cs (sortByCreated (uniq.filter isPrimaryB))
      (uniq.filter isSecondaryB)))
  have h2 := dedupById_nodupIds
    (tracePrimaries cs (sortByCreated (uniq.filter isPrimaryB))
      (uniq.filter isSecondaryB))
  unfold NodupIds at h2
  exact (hperm.map (·.id)).symm.nodup h2

theorem resolvePrimaries_mem_primary {cs uniq : List Contact}
    (hnd : NodupIds cs) (hinv : InvC cs) (huniq : ∀ x ∈ uniq, x ∈ cs) :
    ∀ q ∈ resolvePrimaries cs uniq,
      q ∈ cs ∧ q.linkPrecedence = LinkPrecedence.primary := by
  intro q hq
  unfold resolvePrimaries at hq
  rw [mem_sortByCreated] at hq
  have hq' := mem_dedupById hq
  rcases tracePrimaries_mem hq' with h | ⟨sc, hsc, hlp⟩
  · rw [mem_sortByCreated] at h
    have h' := List.mem_filter.1 h
    refine ⟨huniq q h'.1, ?_⟩
    simpa [isPrimaryB] using h'.2
  · have hsc' := List.mem_filter.1 hsc
    have hsec : sc.linkPrecedence = LinkPrecedence.secondary := by
      simpa [isSecondaryB] using hsc'.2
    obtain ⟨pr, hpr_mem, hpr_id, hpr_prim⟩ :=
      (hinv sc (huniq sc hsc'.1)).2 hsec
    rw [← hpr_id] at hlp
    have hq2 := getById_eq_some hlp
    have : q = pr := nodupIds_inj hnd hq2.1 hpr_mem (hq2.2)
    exact ⟨hq2.1, this ▸ hpr_prim⟩

theorem resolvePrimaries_covers {cs uniq : List Contact}
    (hnd : NodupIds cs) (hinv : InvC cs) (huniq : ∀ x ∈ uniq, x ∈ cs) :
    ∀ c ∈ uniq, ∃ q ∈ resolvePrimaries cs uniq, some q.id = ownerId c := by
  intro c hc
  cases hprec : c.linkPrecedence with
  | primary =>
      have hcf : c ∈ uniq.filter isPrimaryB :=
        List.mem_filter.2 ⟨hc, by simp [isPrimaryB, hprec]⟩
      have h1 : c ∈ sortByCreated (uniq.filter isPrimaryB) :=
        mem_sortByCreated.2 hcf
      have h2 : c ∈ tracePrimaries cs
          (sortByCreated (uniq.filter isPrimaryB)) (uniq.filter isSecondaryB) :=
        tracePrimaries_acc_sub h1
      obtain ⟨b, hb, hbid⟩ := dedupById_covers h2
      refine ⟨b, ?_, ?_⟩
      · unfold resolvePrimaries
        exact mem_sortByCreated.2 hb
      · rw [ownerId, if_pos hprec, hbid]
  | secondary =>
      obtain ⟨pr, hpr_mem, hpr_id, hpr_prim⟩ := (hinv c (huniq c hc)).2 hprec
      have hget : getById cs pr.id = some pr := getById_mem_nodup hnd hpr_mem
      have hlp : lookupParent cs c.linkedId = some pr := by
        rw [← hpr_id]
        exact hget
      have hcf : c ∈ uniq.filter isSecondaryB :=
        List.mem_filter.2 ⟨hc, by simp [isSecondaryB, hprec]⟩
      obtain ⟨q, hq, hqid⟩ :=
        @tracePrimaries_covers cs pr (uniq.filter isSecondaryB)
          (sortByCreated (uniq.filter isPrimaryB)) c hcf hlp
      obtain ⟨b, hb, hbid⟩ := dedupById_covers hq
      refine ⟨b, ?_, ?_⟩
      · unfold resolvePrimaries
        exact mem_sortByCreated.2 hb
      · rw [ownerId, if_neg (by rw [hprec]; intro h; cases h), ← hpr_id,
          hbid, hqid]

theorem resolvePrimaries_nil (cs : List Contact) :
    resolvePrimaries cs [] = [] := rfl

theorem resolvePrimaries_nil_iff {cs uniq : List Contact}
    (hnd : NodupIds cs) (hinv : InvC cs) (huniq : ∀ x ∈ uniq, x ∈ cs) :
    resolvePrimaries cs uniq = [] ↔ uniq = [] := by
  constructor
  · intro h
    by_contra hne
    obtain ⟨c, hc⟩ := List.exists_mem_of_ne_nil uniq hne
    obtain ⟨q, hq, _⟩ := resolvePrimaries_covers hnd hinv huniq c hc
    rw [h] at hq
    cases hq
  · intro h
    rw [h]
    exact resolvePrimaries_nil cs

/-! ## Branch analysis of the handler -/

theorem groupOutcome_fst_contacts (iter : List String → List String)
    (s : Store) (now : Nat) (e p : Option String) (main : Contact)
    (rest : List Contact) :
    (groupOutcome iter s now e p main rest).1.contacts =
      finalContacts s now e p main rest := rfl

theorem groupOutcome_fst_nextId (iter : List String → List String)
    (s : Store) (now : Nat) (e p : Option String) (main : Contact)
    (rest : List Contact) :
    (groupOutcome iter s now e p main rest).1.nextId =
      finalNextId s e p main rest := rfl

theorem groupOutcome_snd (iter : List String → List String)
    (s : Store) (now : Nat) (e p : Option String) (main : Contact)
    (rest : List Contact) :
    (groupOutcome iter s now e p main rest).2 =
      viewResponse iter (finalContacts s now e p main rest) main := rfl

theorem identify_ok_cases {iter : List String → List String} {s : Store}
    {now : Nat} {e p : Option String} {out : Store × Response}
    (h : identify iter s now e p = Except.ok out) :
    (dedupById (findMatches s.contacts e p) = [] ∧
      out = createOutcome s now e p) ∨
    (∃ main rest,
      resolvePrimaries s.contacts (dedupById (findMatches s.contacts e p)) =
        main :: rest ∧ out = groupOutcome iter s now e p main rest) := by
  unfold identify at h
  split at h
  · split at h
    · rename_i hu
      refine Or.inl ⟨hu, ?_⟩
      injection h with h
      exact h.symm
    · rename_i hu
      split at h
      · cases h
      · rename_i main rest hr
        refine Or.inr ⟨main, rest, hr, ?_⟩
        injection h with h
        exact h.symm
  · cases h

/-- The facts about the resolver's output that the merge relies on. -/
theorem resolve_head_facts {s : Store} {e p : Option String}
    {main : Contact} {rest : List Contact}
    (hw : WF s) (hi : LinkInv s)
    (hres : resolvePrimaries s.contacts
      (dedupById (findMatches s.contacts e p)) = main :: rest) :
    main ∈ s.contacts ∧ main.linkPrecedence = LinkPrecedence.primary ∧
      main.linkedId = none ∧ main.id ∉ rest.map (·.id) ∧
      (∀ q ∈ rest, q ∈ s.contacts ∧
        q.linkPrecedence = LinkPrecedence.primary ∧ q.linkedId = none) ∧
      (∀ q ∈ rest, main.createdAt ≤ q.createdAt) := by
  have huniq : ∀ x ∈ dedupById (findMatches s.contacts e p), x ∈ s.contacts :=
    fun x hx => mem_findMatches (mem_dedupById hx)
  have hmem := resolvePrimaries_mem_primary hw.1 hi huniq
  rw [hres] at hmem
  have hnd := resolvePrimaries_nodupIds s.contacts
    (dedupById (findMatches s.contacts e p))
  rw [hres] at hnd
  unfold NodupIds at hnd
  rw [List.map_cons, List.nodup_cons] at hnd
  have hpw : (main :: rest).Pairwise (fun a b => a.createdAt ≤ b.createdAt) := by
    have h := sortByCreated_pairwise (dedupById
      (tracePrimaries s.contacts
        (sortByCreated ((dedupById (findMatches s.contacts e p)).filter isPrimaryB))
        ((dedupById (findMatches s.contacts e p)).filter isSecondaryB)))
    have heq : sortByCreated (dedupById
      (tracePrimaries s.contacts
        (sortByCreated ((dedupById (findMatches s.contacts e p)).filter isPrimaryB))
        ((dedupById (findMatches s.contacts e p)).filter isSecondaryB))) =
        main :: rest := hres
    rwa [heq] at h
  obtain ⟨hm_mem, hm_prim⟩ := hmem main (List.mem_cons_self _ _)
  refine ⟨hm_mem, hm_prim, (hi main hm_mem).1 hm_prim, hnd.1, ?_, ?_⟩
  · intro q hq
    obtain ⟨hq_mem, hq_prim⟩ := hmem q (List.mem_cons_of_mem _ hq)
    exact ⟨hq_mem, hq_prim, (hi q hq_mem).1 hq_prim⟩
  · exact (List.pairwise_cons.1 hpw).1

/-! ## Invariant preservation -/

theorem InvC_append_primary {ds : List Contact} {c : Contact}
    (hinv : InvC ds) (hp : c.linkPrecedence = LinkPrecedence.primary)
    (hl : c.linkedId = none) : InvC (ds ++ [c]) := by
  intro x hx
  rcases List.mem_append.1 hx with hx | hx
  · refine ⟨(hinv x hx).1, fun hs => ?_⟩
    obtain ⟨pr, h1, h2, h3⟩ := (hinv x hx).2 hs
    exact ⟨pr, List.mem_append_left _ h1, h2, h3⟩
  · rcases List.mem_singleton.1 hx with rfl
    refine ⟨fun _ => hl, fun hs => ?_⟩
    rw [hp] at hs
    cases hs

theorem InvC_append_secondary {ds : List Contact} {c pm : Contact}
    (hinv : InvC ds) (hpm : pm ∈ ds)
    (hpm_prim : pm.linkPrecedence = LinkPrecedence.primary)
    (hs : c.linkPrecedence = LinkPrecedence.secondary)
    (hl : c.linkedId = some pm.id) : InvC (ds ++ [c]) := by
  intro x hx
  rcases List.mem_append.1 hx with hx | hx
  · refine ⟨(hinv x hx).1, fun hsx => ?_⟩
    obtain ⟨pr, h1, h2, h3⟩ := (hinv x hx).2 hsx
    exact ⟨pr, List.mem_append_left _ h1, h2, h3⟩
  · rcases List.mem_singleton.1 hx with rfl
    refine ⟨fun hp => ?_, fun _ => ?_⟩
    · rw [hs] at hp; cases hp
    · exact ⟨pm, List.mem_append_left _ hpm, by rw [hl], hpm_prim⟩

/-- After the merge loop, the invariants hold of the mutated rows. -/
theorem inv_merged {s : Store} {e p : Option String}
    {main : Contact} {rest : List Contact}
    (hw : WF s) (hi : LinkInv s)
    (hres : resolvePrimaries s.contacts
      (dedupById (findMatches s.contacts e p)) = main :: rest) :
    InvC (mergeStore s.contacts (rest.map (·.id)) main.id) ∧
      main ∈ mergeStore s.contacts (rest.map (·.id)) main.id := by
  obtain ⟨hm_mem, hm_prim, hm_none, hm_not, hrest, _⟩ :=
    resolve_head_facts hw hi hres
  have hmain_fix : mergeOne (rest.map (·.id)) main.id main = main :=
    mergeOne_of_primary_none hm_not hm_none
  have hmain_mem : main ∈ mergeStore s.contacts (rest.map (·.id)) main.id := by
    have h := @mem_mergeStore s.contacts (rest.map (·.id)) main.id main hm_mem
    rwa [hmain_fix] at h
  refine ⟨?_, hmain_mem⟩
  intro c2 hc2
  obtain ⟨c, hc, rfl⟩ := List.mem_map.1 hc2
  by_cases hcA : c.id ∈ rest.map (·.id)
  · rw [mergeOne_of_absorbed hcA]
    refine ⟨fun hp => ?_, fun _ => ?_⟩
    · cases hp
    · exact ⟨main, hmain_mem, rfl, hm_prim⟩
  · cases hl : c.linkedId with
    | none =>
        rw [mergeOne_of_primary_none hcA hl]
        refine ⟨fun _ => hl, fun hsx => ?_⟩
        obtain ⟨pr, _, h2, _⟩ := (hi c hc).2 hsx
        rw [hl] at h2
        cases h2
    | some l =>
        by_cases hlA : l ∈ rest.map (·.id)
        · rw [mergeOne_of_child hcA hl hlA]
          refine ⟨fun hp => ?_, fun _ => ?_⟩
          · have := (hi c hc).1 hp
            rw [hl] at this
            cases this
          · exact ⟨main, hmain_mem, rfl, hm_prim⟩
        · have hfix : mergeOne (rest.map (·.id)) main.id c = c :=
            mergeOne_untouched hcA (fun l' hc' => by
              rw [hl] at hc'
              injection hc' with hc'
              exact hc' ▸ hlA)
          rw [hfix]
          refine ⟨fun _ => ?_, fun hsx => ?_⟩
          · have h0 := (hi c hc).1 (by assumption)
            exact h0
          · obtain ⟨pr, h1, h2, h3⟩ := (hi c hc).2 hsx
            have hpr_none : pr.linkedId = none := (hi pr h1).1 h3
            have hpr_id : pr.id ∉ rest.map (·.id) := by
              rw [hl] at h2
              injection h2 with h2
              exact h2 ▸ hlA
            have hpr_fix : mergeOne (rest.map (·.id)) main.id pr = pr :=
              mergeOne_of_primary_none hpr_id hpr_none
            have hpr_mem2 :
                pr ∈ mergeStore s.contacts (rest.map (·.id)) main.id := by
              have h :=
                @mem_mergeStore s.contacts (rest.map (·.id)) main.id pr h1
              rwa [hpr_fix] at h
            exact ⟨pr, hpr_mem2, h2, h3⟩

theorem Store_eq_of_parts {s' : Store} {cs : List Contact} {n : Nat}
    (hc : s'.contacts = cs) (hn : s'.nextId = n) : s' = ⟨cs, n⟩ := by
  cases s'
  simp_all

theorem WF_append {s : Store} (hw : WF s) {c : Contact}
    (hc : c.id = s.nextId) : WF ⟨s.contacts ++ [c], s.nextId + 1⟩ := by
  constructor
  · unfold NodupIds
    rw [List.map_append]
    refine (List.perm_append_singleton _ _).symm.nodup ?_
    rw [List.nodup_cons]
    refine ⟨fun hmem => ?_, hw.1⟩
    obtain ⟨b, hb, hbid⟩ := List.mem_map.1 hmem
    have h2 := hw.2 b hb
    have hb2 : b.id = c.id := hbid
    rw [hc] at hb2
    omega
  · intro x hx
    show x.id < s.nextId + 1
    rcases List.mem_append.1 hx with hx | hx
    · exact Nat.lt_succ_of_lt (hw.2 x hx)
    · rcases List.mem_singleton.1 hx with rfl
      rw [hc]
      exact Nat.lt_succ_self _

theorem WF_merged {s : Store} (hw : WF s) (A : List Nat) (m : Nat) :
    WF ⟨mergeStore s.contacts A m, s.nextId⟩ := by
  constructor
  · exact mergeStore_nodupIds hw.1 A m
  · intro x hx
    obtain ⟨c, hc, rfl⟩ := List.mem_map.1 hx
    show (mergeOne A m c).id < s.nextId
    rw [mergeOne_id]
    exact hw.2 c hc

theorem finalContacts_true {s : Store} {now : Nat} {e p : Option String}
    {main : Contact} {rest : List Contact}
    (h : newInfoB s e p main rest = true) :
    finalContacts s now e p main rest =
      mergeStore s.contacts (rest.map (·.id)) main.id
        ++ [newSecondary s now e p main.id] := by
  unfold finalContacts; rw [if_pos h]

theorem finalContacts_false {s : Store} {now : Nat} {e p : Option String}
    {main : Contact} {rest : List Contact}
    (h : newInfoB s e p main rest = false) :
    finalContacts s now e p main rest =
      mergeStore s.contacts (rest.map (·.id)) main.id := by
  unfold finalContacts; rw [if_neg (by rw [h]; exact Bool.false_ne_true)]

theorem finalNextId_true {s : Store} {e p : Option String}
    {main : Contact} {rest : List Contact}
    (h : newInfoB s e p main rest = true) :
    finalNextId s e p main rest = s.nextId + 1 := by
  unfold finalNextId; rw [if_pos h]

theorem finalNextId_false {s : Store} {e p : Option String}
    {main : Contact} {rest : List Contact}
    (h : newInfoB s e p main rest = false) :
    finalNextId s e p main rest = s.nextId := by
  unfold finalNextId; rw [if_neg (by rw [h]; exact Bool.false_ne_true)]

/-- Row lookup in the post-request store, for a pre-request row of a
scenario-2/3 request: it is the row the merge loop produced. -/
theorem getById_finalContacts {s : Store} {now : Nat} {e p : Option String}
    {main : Contact} {rest : List Contact} (hw : WF s) {c : Contact}
    (hc : c ∈ s.contacts) :
    getById (finalContacts s now e p main rest) c.id =
      some (mergeOne (rest.map (·.id)) main.id c) := by
  have hbase : getById (mergeStore s.contacts (rest.map (·.id)) main.id) c.id =
      some (mergeOne (rest.map (·.id)) main.id c) := by
    rw [getById_mergeStore, getById_mem_nodup hw.1 hc, Option.map_some']
  cases hni : newInfoB s e p main rest with
  | true => rw [finalContacts_true hni]; exact getById_append_of_some hbase
  | false => rw [finalContacts_false hni]; exact hbase

/-- One successful request preserves well-formedness and invariants 1–3. -/
theorem identify_preserves {iter : List String → List String} {s : Store}
    {now : Nat} {e p : Option String} {s' : Store} {r : Response}
    (hw : WF s) (hi : LinkInv s)
    (hok : identify iter s now e p = Except.ok (s', r)) :
    WF s' ∧ LinkInv s' := by
  rcases identify_ok_cases hok with ⟨_, hout⟩ | ⟨main, rest, hres, hout⟩
  · have hs : s' = (createOutcome s now e p).1 := congrArg Prod.fst hout
    have h1 : s' = ⟨s.contacts ++
        [⟨s.nextId, p, e, none, LinkPrecedence.primary, now⟩],
        s.nextId + 1⟩ := by
      rw [hs]; rfl
    rw [h1]
    exact ⟨WF_append hw rfl, InvC_append_primary hi rfl rfl⟩
  · have hs : s' = (groupOutcome iter s now e p main rest).1 :=
      congrArg Prod.fst hout
    obtain ⟨hinvm, hmainm⟩ := inv_merged hw hi hres
    have hm_prim : main.linkPrecedence = LinkPrecedence.primary :=
      (resolve_head_facts hw hi hres).2.1
    cases hni : newInfoB s e p main rest with
    | true =>
        have h1 : s' = ⟨mergeStore s.contacts (rest.map (·.id)) main.id
            ++ [newSecondary s now e p main.id], s.nextId + 1⟩ :=
          Store_eq_of_parts
            (by rw [hs, groupOutcome_fst_contacts, finalContacts_true hni])
            (by rw [hs, groupOutcome_fst_nextId, finalNextId_true hni])
        rw [h1]
        refine ⟨@WF_append
          ⟨mergeStore s.contacts (rest.map (·.id)) main.id, s.nextId⟩
          (WF_merged hw _ _) (newSecondary s now e p main.id) rfl, ?_⟩
        exact InvC_append_secondary hinvm hmainm hm_prim rfl rfl
    | false =>
        have h1 : s' = ⟨mergeStore s.contacts (rest.map (·.id)) main.id,
            s.nextId⟩ :=
          Store_eq_of_parts
            (by rw [hs, groupOutcome_fst_contacts, finalContacts_false hni])
            (by rw [hs, groupOutcome_fst_nextId, finalNextId_false hni])
        rw [h1]
        exact ⟨WF_merged hw _ _, hinvm⟩

/-- Frame property of one successful request over the pre-request rows:
every row survives with its `id`, `email`, `phoneNumber`, `createdAt`
unchanged, and a secondary row never becomes primary. -/
theorem identify_frame {iter : List String → List String} {s : Store}
    {now : Nat} {e p : Option String} {s' : Store} {r : Response}
    (hw : WF s)
    (hok : identify iter s now e p = Except.ok (s', r)) :
    ∀ c ∈ s.contacts, ∃ c', getById s'.contacts c.id = some c' ∧
      c'.id = c.id ∧ c'.email = c.email ∧ c'.phoneNumber = c.phoneNumber ∧
      c'.createdAt = c.createdAt ∧
      (c.linkPrecedence = LinkPrecedence.secondary →
        c'.linkPrecedence = LinkPrecedence.secondary) := by
  intro c hc
  rcases identify_ok_cases hok with ⟨_, hout⟩ | ⟨main, rest, hres, hout⟩
  · have hs : s' = (createOutcome s now e p).1 := congrArg Prod.fst hout
    refine ⟨c, ?_, rfl, rfl, rfl, rfl, fun h => h⟩
    rw [hs]
    exact getById_append_of_some (getById_mem_nodup hw.1 hc)
  · have hs : s' = (groupOutcome iter s now e p main rest).1 :=
      congrArg Prod.fst hout
    refine ⟨mergeOne (rest.map (·.id)) main.id c, ?_,
      mergeOne_id _ _ _, mergeOne_email _ _ _, mergeOne_phoneNumber _ _ _,
      mergeOne_createdAt _ _ _, fun h => mergeOne_secondary_stays h⟩
    rw [hs, groupOutcome_fst_contacts]
    exact getById_finalContacts hw hc

/-! ## Multi-request lemmas -/

theorem stepStore_preserves {iter : List String → List String} {s : Store}
    {r : Req} (hw : WF s) (hi : LinkInv s) :
    WF (stepStore iter s r) ∧ LinkInv (stepStore iter s r) := by
  unfold stepStore
  cases hid : identify iter s r.now r.email r.phoneNumber with
  | ok out =>
      cases out with
      | mk s' resp => exact identify_preserves hw hi hid
  | error err => exact ⟨hw, hi⟩

theorem stepStore_frame {iter : List String → List String} {s : Store}
    {r : Req} (hw : WF s) :
    ∀ c ∈ s.contacts, ∃ c',
      getById (stepStore iter s r).contacts c.id = some c' ∧
      c'.id = c.id ∧ c'.email = c.email ∧ c'.phoneNumber = c.phoneNumber ∧
      c'.createdAt = c.createdAt ∧
      (c.linkPrecedence = LinkPrecedence.secondary →
        c'.linkPrecedence = LinkPrecedence.secondary) := by
  intro c hc
  unfold stepStore
  cases hid : identify iter s r.now r.email r.phoneNumber with
  | ok out =>
      cases out with
      | mk s' resp => exact identify_frame hw hid c hc
  | error err =>
      exact ⟨c, getById_mem_nodup hw.1 hc, rfl, rfl, rfl, rfl, fun h => h⟩

theorem runSeq_preserves {iter : List String → List String} :
    ∀ (reqs : List Req) (s : Store), WF s → LinkInv s →
      WF (runSeq iter s reqs) ∧ LinkInv (runSeq iter s reqs) := by
  intro reqs
  induction reqs with
  | nil => intro s hw hi; exact ⟨hw, hi⟩
  | cons r rs ih =>
      intro s hw hi
      obtain ⟨hw', hi'⟩ := stepStore_preserves hw hi
      exact ih _ hw' hi'

theorem runSeq_frame {iter : List String → List String} :
    ∀ (reqs : List Req) (s : Store), WF s → LinkInv s →
      ∀ c ∈ s.contacts, ∃ c',
        getById (runSeq iter s reqs).contacts c.id = some c' ∧
        c'.id = c.id ∧ c'.email = c.email ∧ c'.phoneNumber = c.phoneNumber ∧
        c'.createdAt = c.createdAt ∧
        (c.linkPrecedence = LinkPrecedence.secondary →
          c'.linkPrecedence = LinkPrecedence.secondary) := by
  intro reqs
  induction reqs with
  | nil =>
      intro s hw hi c hc
      exact ⟨c, getById_mem_nodup hw.1 hc, rfl, rfl, rfl, rfl, fun h => h⟩
  | cons r rs ih =>
      intro s hw hi c hc
      obtain ⟨c1, hget, hid, hem, hph, hcr, hprec⟩ := stepStore_frame hw c hc
      obtain ⟨hw', hi'⟩ := stepStore_preserves hw hi
      have hc1 : c1 ∈ (stepStore iter s r).contacts := (getById_eq_some hget).1
      obtain ⟨c2, hget2, hid2, hem2, hph2, hcr2, hprec2⟩ :=
        ih (stepStore iter s r) hw' hi' c1 hc1
      rw [hid] at hget2
      refine ⟨c2, hget2, hid ▸ hid2, hem ▸ hem2, hph ▸ hph2, hcr ▸ hcr2,
        fun h => hprec2 (hprec h)⟩

/-! ## The surviving primary and the view -/

theorem main_survives {s : Store} {now : Nat} {e p : Option String}
    {main : Contact} {rest : List Contact} (hw : WF s) (hi : LinkInv s)
    (hres : resolvePrimaries s.contacts
      (dedupById (findMatches s.contacts e p)) = main :: rest) :
    getById (finalContacts s now e p main rest) main.id = some main := by
  obtain ⟨hm_mem, _, hm_none, hm_not, _, _⟩ := resolve_head_facts hw hi hres
  have h : getById (finalContacts s now e p main rest) main.id =
      some (mergeOne (rest.map (·.id)) main.id main) :=
    getById_finalContacts hw hm_mem
  rw [mergeOne_of_primary_none hm_not hm_none] at h
  exact h

theorem viewResponse_primaryId {iter : List String → List String}
    {cs2 : List Contact} {main : Contact}
    (h : getById cs2 main.id = some main) :
    (viewResponse iter cs2 main).primaryId = main.id := by
  simp only [viewResponse, h, Option.getD_some]

theorem viewResponse_emails {iter : List String → List String}
    {cs2 : List Contact} {main : Contact}
    (h : getById cs2 main.id = some main) :
    (viewResponse iter cs2 main).emails =
      assembleList main.email
        (iter (dedupStr (emailsOf (main :: childrenOf cs2 main.id)))) := by
  simp only [viewResponse, h, Option.getD_some]

theorem viewResponse_phones {iter : List String → List String}
    {cs2 : List Contact} {main : Contact}
    (h : getById cs2 main.id = some main) :
    (viewResponse iter cs2 main).phones =
      assembleList main.phoneNumber
        (iter (dedupStr (phonesOf (main :: childrenOf cs2 main.id)))) := by
  simp only [viewResponse, h, Option.getD_some]

/-! ## Response-list assembly -/

theorem emailsOf_no_empty {l : List Contact} : "" ∉ emailsOf l := by
  intro h
  unfold emailsOf at h
  have := (List.mem_filter.1 h).2
  simp at this

theorem phonesOf_no_empty {l : List Contact} : "" ∉ phonesOf l := by
  intro h
  unfold phonesOf at h
  have := (List.mem_filter.1 h).2
  simp at this

theorem mem_emailsOf_head {c : Contact} {l : List Contact} {v : String}
    (hc : c.email = some v) (hv : v ≠ "") : v ∈ emailsOf (c :: l) := by
  unfold emailsOf
  refine List.mem_filter.2 ⟨?_, by simp [hv]⟩
  rw [List.filterMap_cons, hc]
  exact List.mem_cons_self _ _

theorem mem_phonesOf_head {c : Contact} {l : List Contact} {v : String}
    (hc : c.phoneNumber = some v) (hv : v ≠ "") :
    v ∈ phonesOf (c :: l) := by
  unfold phonesOf
  refine List.mem_filter.2 ⟨?_, by simp [hv]⟩
  rw [List.filterMap_cons, hc]
  exact List.mem_cons_self _ _

/-- What the line 232–241 assembly produces, for any legitimate
set-iteration order `vals` of the distinct truthy values `L`: a
duplicate-free permutation of `L` whose head is the primary's own value
whenever that value is truthy. -/
theorem assemble_spec {mo : Option String} {L vals : List String}
    (hperm : vals.Perm L) (hnodup : L.Nodup)
    (hmem : ∀ v, mo = some v → v ≠ "" → v ∈ L)
    (hne : "" ∉ L) :
    (assembleList mo vals).Perm L ∧
      (truthy mo = true → (assembleList mo vals).head? = mo) ∧
      (assembleList mo vals).Nodup := by
  cases mo with
  | none =>
      have hfilter : vals.filter (fun x => decide (some x ≠ none)) = vals := by
        rw [List.filter_eq_self]
        intro a _
        simp
      have hP : (assembleList none vals).Perm L := by
        unfold assembleList
        rw [hfilter]
        simpa [listIf] using hperm
      refine ⟨hP, fun h => by simp [truthy] at h, hP.symm.nodup hnodup⟩
  | some v =>
      by_cases hv : v = ""
      · subst hv
        have hfilter : vals.filter (fun x => decide (some x ≠ some "")) =
            vals := by
          rw [List.filter_eq_self]
          intro a ha
          have haL : a ∈ L := hperm.mem_iff.1 ha
          have hane : a ≠ "" := fun h => hne (h ▸ haL)
          simp [hane]
        have hP : (assembleList (some "") vals).Perm L := by
          unfold assembleList
          rw [hfilter]
          simpa [listIf] using hperm
        refine ⟨hP, fun h => by simp [truthy] at h, hP.symm.nodup hnodup⟩
      · have hvL : v ∈ L := hmem v rfl hv
        have hfc : ∀ x ∈ vals,
            (decide (some x ≠ some v)) = (x != v) := by
          intro x _
          simp [bne, beq_eq_decide]
        have hfcL : ∀ x ∈ L,
            (x != v) = (decide (some x ≠ some v)) := by
          intro x _
          simp [bne, beq_eq_decide]
        have hstep : (vals.filter (fun x => decide (some x ≠ some v))).Perm
            (L.erase v) := by
          rw [hnodup.erase_eq_filter v, List.filter_congr hfcL]
          exact hperm.filter _
        have hP : (assembleList (some v) vals).Perm L := by
          unfold assembleList
          rw [listIf_of_truthy hv]
          have h1 : (v :: vals.filter (fun x => decide (some x ≠ some v))).Perm
              (v :: L.erase v) := hstep.cons v
          exact h1.trans (List.perm_cons_erase hvL).symm
        refine ⟨hP, fun _ => ?_, hP.symm.nodup hnodup⟩
        unfold assembleList
        rw [listIf_of_truthy hv]
        rfl

/-! ## Scenario-1 helpers and singleton computations -/

theorem findMatches_nil (e p : Option String) : findMatches [] e p = [] := by
  unfold findMatches
  cases truthy e <;> cases truthy p <;> simp

theorem identify_create {iter : List String → List String} {s : Store}
    {now : Nat} {e p : Option String}
    (hsup : (truthy e || truthy p) = true)
    (hnone : findMatches s.contacts e p = []) :
    identify iter s now e p = Except.ok (createOutcome s now e p) := by
  unfold identify
  rw [if_pos hsup, hnone]
  rfl

theorem fresh_no_children {s : Store} (hw : WF s) (hi : LinkInv s) :
    childrenOf s.contacts s.nextId = [] := by
  unfold childrenOf
  rw [List.filter_eq_nil_iff]
  intro c hc
  simp only [decide_eq_true_eq]
  intro hlink
  cases hprec : c.linkPrecedence with
  | primary =>
      rw [(hi c hc).1 hprec] at hlink
      cases hlink
  | secondary =>
      obtain ⟨pr, hpr_mem, hpr_id, _⟩ := (hi c hc).2 hprec
      rw [hlink] at hpr_id
      injection hpr_id with h
      have := hw.2 pr hpr_mem
      omega

theorem fresh_no_children_append {s : Store} (hw : WF s) (hi : LinkInv s)
    {nc : Contact} (hnc : nc.linkedId = none) :
    childrenOf (s.contacts ++ [nc]) s.nextId = [] := by
  unfold childrenOf
  rw [List.filter_append]
  have h1 := fresh_no_children hw hi
  unfold childrenOf at h1
  rw [h1, List.nil_append, List.filter_eq_nil_iff]
  intro a ha
  rcases List.mem_singleton.1 ha with rfl
  simp [hnc]

theorem emailsOf_single (c : Contact) : emailsOf [c] = listIf c.email := by
  unfold emailsOf listIf
  cases hc : c.email with
  | none => simp [List.filterMap_cons, hc]
  | some v =>
      by_cases hv : v = "" <;>
        simp [List.filterMap_cons, hc, hv]

theorem phonesOf_single (c : Contact) :
    phonesOf [c] = listIf c.phoneNumber := by
  unfold phonesOf listIf
  cases hc : c.phoneNumber with
  | none => simp [List.filterMap_cons, hc]
  | some v =>
      by_cases hv : v = "" <;>
        simp [List.filterMap_cons, hc, hv]

theorem dedupStr_listIf (o : Option String) :
    dedupStr (listIf o) = listIf o := by
  cases o with
  | none => rfl
  | some v =>
      simp only [listIf]
      by_cases hv : v = ""
      · rw [if_pos hv]; rfl
      · rw [if_neg hv]; rfl

theorem listIf_nodup (o : Option String) : (listIf o).Nodup := by
  cases o with
  | none => simp [listIf]
  | some v =>
      simp only [listIf]
      by_cases hv : v = ""
      · rw [if_pos hv]; simp
      · rw [if_neg hv]; simp

theorem listIf_head {o : Option String} (h : truthy o = true) :
    (listIf o).head? = o := by
  obtain ⟨v, rfl, hv⟩ := truthy_iff.1 h
  rw [listIf_of_truthy hv]
  rfl

theorem dedupById_single (c : Contact) : dedupById [c] = [c] := by
  simp [dedupById, dedupByIdAux]

theorem dedupById_pair_self (c : Contact) : dedupById [c, c] = [c] := by
  simp [dedupById, dedupByIdAux]

theorem resolvePrimaries_single_primary {cs : List Contact} {c : Contact}
    (hp : c.linkPrecedence = LinkPrecedence.primary) :
    resolvePrimaries cs [c] = [c] := by
  unfold resolvePrimaries
  simp [hp, isPrimaryB, isSecondaryB, sortByCreated, insertByCreated,
    dedupById, dedupByIdAux, tracePrimaries]

theorem findMatches_self {e p : Option String} {nc : Contact}
    (he : nc.email = e) (hp : nc.phoneNumber = p) :
    findMatches [nc] e p =
      (if truthy e then [nc] else []) ++ (if truthy p then [nc] else []) := by
  unfold findMatches
  rw [← he, ← hp]
  cases truthy nc.email <;> cases truthy nc.phoneNumber <;>
    simp [List.filter]

theorem newInfoB_self {s1 : Store} {e p : Option String} {nc : Contact}
    (hcs : s1.contacts = [nc]) (he : nc.email = e) (hp : nc.phoneNumber = p)
    (hl : nc.linkedId = none) : newInfoB s1 e p nc [] = false := by
  unfold newInfoB relatedOf contactsToUpdateOf
  rw [hcs, List.foldl_nil, List.append_nil]
  have hch : childrenOf [nc] nc.id = [] := by
    simp [childrenOf, hl]
  rw [hch]
  rw [Bool.or_eq_false_iff]
  constructor
  · cases hev : e with
    | none => rfl
    | some v =>
        by_cases hv : v = ""
        · subst hv
          simp [truthy]
        · rw [emailsOf_single, he, hev, listIf_of_truthy hv]
          simp [truthy, hv, List.contains]
  · cases hpv : p with
    | none => rfl
    | some v =>
        by_cases hv : v = ""
        · subst hv
          simp [truthy]
        · rw [phonesOf_single, hp, hpv, listIf_of_truthy hv]
          simp [truthy, hv, List.contains]

theorem identify_error_internal {iter : List String → List String} {s : Store}
    {now : Nat} {e p : Option String}
    (h : identify iter s now e p = Except.error IdError.internal) :
    resolvePrimaries s.contacts (dedupById (findMatches s.contacts e p)) = []
      ∧ dedupById (findMatches s.contacts e p) ≠ [] := by
  unfold identify at h
  split at h
  · split at h
    · cases h
    · rename_i hu
      split at h
      · rename_i hr
        exact ⟨hr, hu⟩
      · cases h
  · cases h

/-- Given a successful request whose resolver output is known, the
request took the scenario-2/3 branch with exactly that output. -/
theorem identify_ok_group {iter : List String → List String} {s : Store}
    {now : Nat} {e p : Option String} {s' : Store} {r : Response}
    {main : Contact} {rest : List Contact}
    (hres : resolvePrimaries s.contacts
      (dedupById (findMatches s.contacts e p)) = main :: rest)
    (hok : identify iter s now e p = Except.ok (s', r)) :
    s' = (groupOutcome iter s now e p main rest).1 ∧
      r = (groupOutcome iter s now e p main rest).2 := by
  rcases identify_ok_cases hok with ⟨hnil, hout⟩ | ⟨main', rest', hres', hout⟩
  · rw [hnil, resolvePrimaries_nil] at hres
    cases hres
  · rw [hres] at hres'
    injection hres' with h1 h2
    subst h1
    subst h2
    exact ⟨congrArg Prod.fst hout, congrArg Prod.snd hout⟩

/-! ## Concrete stores used by counterexamples and witnesses -/

def contactP1 : Contact :=
  ⟨1, some "1", some "a", none, LinkPrecedence.primary, 5⟩

def contactP2 : Contact :=
  ⟨2, some "2", some "b", none, LinkPrecedence.primary, 5⟩

/-- Two independent primaries that share their `createdAt` timestamp. -/
def storeTied : Store := ⟨[contactP1, contactP2], 3⟩

def contactQ1 : Contact :=
  ⟨1, some "1", some "a", none, LinkPrecedence.primary, 1⟩

/-- A single one-member identity group. -/
def storeSingle : Store := ⟨[contactQ1], 2⟩

def contactG1 : Contact :=
  ⟨1, some "1", some "a", none, LinkPrecedence.primary, 1⟩

def contactG2 : Contact :=
  ⟨2, none, some "b", some 1, LinkPrecedence.secondary, 2⟩

def contactG3 : Contact :=
  ⟨3, none, some "c", some 1, LinkPrecedence.secondary, 3⟩

/-- One identity group with two secondaries carrying distinct emails. -/
def storeGroup : Store := ⟨[contactG1, contactG2, contactG3], 4⟩

/-- Requests that build a three-group chain and then merge it twice. -/
def seqBuild : List Req :=
  [⟨some "x0", none, 1⟩, ⟨some "x1", none, 2⟩,
   ⟨some "x2", none, 3⟩, ⟨some "x2", some "p", 4⟩]

/-- `seqBuild` followed by a request that merges groups x1 and x2. -/
def seqMergeOnce : List Req := seqBuild ++ [⟨some "x1", some "p", 5⟩]

/-- `seqMergeOnce` followed by a request that merges x0's group in. -/
def seqMergeTwice : List Req := seqMergeOnce ++ [⟨some "x0", some "p", 6⟩]

def storeTiedAfter : Store :=
  ⟨[⟨1, some "1", some "a", some 2, LinkPrecedence.secondary, 5⟩,
    contactP2], 3⟩

def respTied : Response := ⟨2, ["b", "a"], ["2", "1"], [1]⟩

def storeSingleAfter : Store :=
  ⟨[contactQ1, ⟨2, some "2", some "a", some 1, LinkPrecedence.secondary, 7⟩],
   3⟩

def respSingle : Response := ⟨1, ["a"], ["1", "2"], [2]⟩

def respGroup : Response := ⟨1, ["a", "b", "c"], ["1"], [2, 3]⟩

theorem identify_storeTied_eq :
    identify id storeTied 9 (some "b") (some "1") =
      Except.ok (storeTiedAfter, respTied) := rfl

theorem resolve_storeTied_eq :
    resolvePrimaries storeTied.contacts
      (dedupById (findMatches storeTied.contacts (some "b") (some "1"))) =
      [contactP2, contactP1] := rfl

theorem identify_storeSingle_eq :
    identify id storeSingle 7 (some "a") (some "2") =
      Except.ok (storeSingleAfter, respSingle) := rfl

theorem resolve_storeSingle_eq :
    resolvePrimaries storeSingle.contacts
      (dedupById (findMatches storeSingle.contacts (some "a") (some "2"))) =
      [contactQ1] := rfl

theorem identify_storeGroup_eq :
    identify id storeGroup 10 (some "a") (some "1") =
      Except.ok (storeGroup, respGroup) := rfl

/-! ## The claims -/

/-- C7: a request in which neither email nor phone is supplied (Python
truthiness: absent or empty) fails with the validation error, surfaced
as the 400 client error, and the store is unchanged (no mutation is
attempted). -/
theorem C7_validation_error (iter : List String → List String) (s : Store)
    (now : Nat) (e p : Option String)
    (he : truthy e = false) (hp : truthy p = false) :
    identify iter s now e p = Except.error IdError.validation ∧
      stepStore iter s ⟨e, p, now⟩ = s := by
  have h1 : identify iter s now e p = Except.error IdError.validation := by
    unfold identify
    rw [if_neg (by rw [he, hp]; simp)]
  refine ⟨h1, ?_⟩
  unfold stepStore
  rw [h1]

/-- C7 witness: the empty observation against the empty store. -/
theorem C7_validation_error_witness :
    identify id ⟨[], 1⟩ 0 none (some "") = Except.error IdError.validation ∧
      stepStore id ⟨[], 1⟩ ⟨none, some "", 0⟩ = ⟨[], 1⟩ :=
  C7_validation_error id ⟨[], 1⟩ 0 none (some "") rfl rfl

/-- C4: when at least one field is supplied and no existing row matches
the given email or phone, exactly one new Contact is created — primary,
`linkedId` null, carrying the given values — and the response is the new
id with singleton/empty value lists and no secondaries. -/
theorem C4_create_primary (iter : List String → List String) (s : Store)
    (now : Nat) (e p : Option String)
    (hsup : (truthy e || truthy p) = true)
    (hnone : findMatches s.contacts e p = []) :
    identify iter s now e p = Except.ok
      (⟨s.contacts ++ [⟨s.nextId, p, e, none, LinkPrecedence.primary, now⟩],
        s.nextId + 1⟩,
       ⟨s.nextId, listIf e, listIf p, []⟩) :=
  identify_create hsup hnone

/-- C4 witness: an email-only observation against the empty store. -/
theorem C4_create_primary_witness :
    identify id ⟨[], 1⟩ 5 (some "a") none = Except.ok
      (⟨[⟨1, none, some "a", none, LinkPrecedence.primary, 5⟩], 2⟩,
       ⟨1, ["a"], [], []⟩) := by
  have h := C4_create_primary id ⟨[], 1⟩ 5 (some "a") none rfl rfl
  simpa [listIf] using h

/-- C6: for a well-formed store satisfying the link invariants, the
resolver returns an empty list exactly when the matched set is empty;
every resolved record is an existing primary; every matched record's
owner (itself when primary, its `linkedId` target when secondary) is
represented in the resolver's output; hence the `primary_contacts[0]`
indexing never fails (no internal error). -/
theorem C6_resolver_safety (iter : List String → List String) (s : Store)
    (now : Nat) (e p : Option String) (hw : WF s) (hi : LinkInv s) :
    (resolvePrimaries s.contacts (dedupById (findMatches s.contacts e p)) = []
      ↔ dedupById (findMatches s.contacts e p) = []) ∧
    (∀ q ∈ resolvePrimaries s.contacts
        (dedupById (findMatches s.contacts e p)),
      q ∈ s.contacts ∧ q.linkPrecedence = LinkPrecedence.primary) ∧
    (∀ c ∈ dedupById (findMatches s.contacts e p),
      ∃ q ∈ resolvePrimaries s.contacts
        (dedupById (findMatches s.contacts e p)),
        some q.id = ownerId c) ∧
    identify iter s now e p ≠ Except.error IdError.internal := by
  have huniq : ∀ x ∈ dedupById (findMatches s.contacts e p), x ∈ s.contacts :=
    fun x hx => mem_findMatches (mem_dedupById hx)
  refine ⟨resolvePrimaries_nil_iff hw.1 hi huniq,
    resolvePrimaries_mem_primary hw.1 hi huniq,
    resolvePrimaries_covers hw.1 hi huniq, ?_⟩
  intro hbad
  obtain ⟨hr, hu⟩ := identify_error_internal hbad
  exact hu ((resolvePrimaries_nil_iff hw.1 hi huniq).1 hr)

/-- C6 witness: the two-primary store with a linking observation. -/
theorem C6_resolver_safety_witness :
    WF storeTied ∧ LinkInv storeTied ∧
    ((resolvePrimaries storeTied.contacts
        (dedupById (findMatches storeTied.contacts (some "b") (some "1"))) = []
      ↔ dedupById (findMatches storeTied.contacts (some "b") (some "1")) = []) ∧
    (∀ q ∈ resolvePrimaries storeTied.contacts
        (dedupById (findMatches storeTied.contacts (some "b") (some "1"))),
      q ∈ storeTied.contacts ∧ q.linkPrecedence = LinkPrecedence.primary) ∧
    (∀ c ∈ dedupById (findMatches storeTied.contacts (some "b") (some "1")),
      ∃ q ∈ resolvePrimaries storeTied.contacts
        (dedupById (findMatches storeTied.contacts (some "b") (some "1"))),
        some q.id = ownerId c) ∧
    identify id storeTied 0 (some "b") (some "1") ≠
      Except.error IdError.internal) :=
  ⟨by decide, by decide,
    C6_resolver_safety id storeTied 0 (some "b") (some "1")
      (by decide) (by decide)⟩

/-- C2: after every successful request on a well-formed store satisfying
the link invariants, every secondary row's `linkedId` points at a
primary row — link depth is exactly one; moreover, during a merge every
pre-existing secondary that pointed at an absorbed primary has been
re-pointed directly at the surviving primary, so no two-hop chain
exists in the post-request store. -/
theorem C2_link_depth_one (iter : List String → List String) {s : Store}
    {now : Nat} {e p : Option String} {s' : Store} {r : Response}
    (hw : WF s) (hi : LinkInv s)
    (hok : identify iter s now e p = Except.ok (s', r)) :
    LinkInv s' ∧
    ∀ main rest,
      resolvePrimaries s.contacts
        (dedupById (findMatches s.contacts e p)) = main :: rest →
      ∀ c ∈ s.contacts, ∀ l, c.linkedId = some l → l ∈ rest.map (·.id) →
        getById s'.contacts c.id = some (relink c main.id) := by
  refine ⟨(identify_preserves hw hi hok).2, ?_⟩
  intro main rest hres c hc l hl hlA
  obtain ⟨hs, _⟩ := identify_ok_group hres hok
  have hcA : c.id ∉ rest.map (·.id) := by
    intro hmem
    obtain ⟨q, hq, hqid⟩ := List.mem_map.1 hmem
    obtain ⟨_, _, _, _, hrest, _⟩ := resolve_head_facts hw hi hres
    obtain ⟨hq_mem, hq_prim, _⟩ := hrest q hq
    have : q = c := nodupIds_inj hw.1 hq_mem hc hqid
    subst this
    rw [(hi q hq_mem).1 hq_prim] at hl
    cases hl
  have h1 : getById s'.contacts c.id =
      some (mergeOne (rest.map (·.id)) main.id c) := by
    rw [hs, groupOutcome_fst_contacts]
    exact getById_finalContacts hw hc
  rw [mergeOne_of_child hcA hl hlA] at h1
  exact h1

/-- C2 witness: the merge of two tied primaries re-points nothing here
but preserves the invariant; instantiated at the tied store. -/
theorem C2_link_depth_one_witness :
    WF storeTied ∧ LinkInv storeTied ∧
    (LinkInv storeTiedAfter ∧
      ∀ main rest,
        resolvePrimaries storeTied.contacts
          (dedupById (findMatches storeTied.contacts (some "b") (some "1"))) =
          main :: rest →
        ∀ c ∈ storeTied.contacts, ∀ l, c.linkedId = some l →
          l ∈ rest.map (·.id) →
          getById storeTiedAfter.contacts c.id =
            some (relink c main.id)) :=
  ⟨by decide, by decide,
    C2_link_depth_one id (by decide) (by decide) identify_storeTied_eq⟩

/-- C10: during a scenario-2/3 request, a pre-existing row keeps its
`id`, `createdAt`, `email` and `phoneNumber`; an absorbed primary is
exactly demoted (`precedence` secondary, `linkedId` the survivor); a
row that pointed at an absorbed primary is exactly re-pointed; every
other pre-existing row is completely untouched. -/
theorem C10_merge_frame (iter : List String → List String) {s : Store}
    {now : Nat} {e p : Option String} {s' : Store} {r : Response}
    {main : Contact} {rest : List Contact}
    (hw : WF s)
    (hres : resolvePrimaries s.contacts
      (dedupById (findMatches s.contacts e p)) = main :: rest)
    (hok : identify iter s now e p = Except.ok (s', r)) :
    ∀ c ∈ s.contacts, ∃ c', getById s'.contacts c.id = some c' ∧
      c'.id = c.id ∧ c'.createdAt = c.createdAt ∧ c'.email = c.email ∧
      c'.phoneNumber = c.phoneNumber ∧
      (c.id ∈ rest.map (·.id) → c' = demote c main.id) ∧
      (c.id ∉ rest.map (·.id) → ∀ l, c.linkedId = some l →
        l ∈ rest.map (·.id) → c' = relink c main.id) ∧
      (c.id ∉ rest.map (·.id) → (∀ l, c.linkedId = some l →
        l ∉ rest.map (·.id)) → c' = c) := by
  intro c hc
  obtain ⟨hs, _⟩ := identify_ok_group hres hok
  refine ⟨mergeOne (rest.map (·.id)) main.id c, ?_, mergeOne_id _ _ _,
    mergeOne_createdAt _ _ _, mergeOne_email _ _ _,
    mergeOne_phoneNumber _ _ _, ?_, ?_, ?_⟩
  · rw [hs, groupOutcome_fst_contacts]
    exact getById_finalContacts hw hc
  · intro hmem
    exact mergeOne_of_absorbed hmem
  · intro hnot l hl hlA
    exact mergeOne_of_child hnot hl hlA
  · intro hnot hl
    exact mergeOne_untouched hnot hl

/-- C10 witness: the tied-primary merge, instantiated. -/
theorem C10_merge_frame_witness :
    WF storeTied ∧
    (∀ c ∈ storeTied.contacts, ∃ c',
      getById storeTiedAfter.contacts c.id = some c' ∧
      c'.id = c.id ∧ c'.createdAt = c.createdAt ∧ c'.email = c.email ∧
      c'.phoneNumber = c.phoneNumber ∧
      (c.id ∈ [contactP1].map (·.id) → c' = demote c contactP2.id) ∧
      (c.id ∉ [contactP1].map (·.id) → ∀ l, c.linkedId = some l →
        l ∈ [contactP1].map (·.id) → c' = relink c contactP2.id) ∧
      (c.id ∉ [contactP1].map (·.id) → (∀ l, c.linkedId = some l →
        l ∉ [contactP1].map (·.id)) → c' = c)) :=
  ⟨by decide,
    C10_merge_frame id (by decide) resolve_storeTied_eq
      identify_storeTied_eq⟩

/-- C9 (amended): across any sequence of requests on a well-formed
invariant-satisfying store, every row persists (never deleted) with
`id`, `email`, `phoneNumber`, `createdAt` immutable, and a secondary
row is never promoted back to primary — so `precedence` changes at
most once, primary→secondary; a secondary's `linkedId`, however, may
be re-pointed again by later merges. -/
theorem C9_amended_precedence_monotone (iter : List String → List String)
    (s : Store) (reqs : List Req) (hw : WF s) (hi : LinkInv s) :
    ∀ c ∈ s.contacts, ∃ c',
      getById (runSeq iter s reqs).contacts c.id = some c' ∧
      c'.id = c.id ∧ c'.email = c.email ∧ c'.phoneNumber = c.phoneNumber ∧
      c'.createdAt = c.createdAt ∧
      (c.linkPrecedence = LinkPrecedence.secondary →
        c'.linkPrecedence = LinkPrecedence.secondary) :=
  runSeq_frame reqs s hw hi

/-- C9 witness: one attach request on a singleton store. -/
theorem C9_amended_precedence_monotone_witness :
    WF storeSingle ∧ LinkInv storeSingle ∧ contactQ1 ∈ storeSingle.contacts ∧
    (∃ c', getById (runSeq id storeSingle [⟨some "a", some "2", 7⟩]).contacts
        contactQ1.id = some c' ∧
      c'.id = contactQ1.id ∧ c'.email = contactQ1.email ∧
      c'.phoneNumber = contactQ1.phoneNumber ∧
      c'.createdAt = contactQ1.createdAt ∧
      (contactQ1.linkPrecedence = LinkPrecedence.secondary →
        c'.linkPrecedence = LinkPrecedence.secondary)) :=
  ⟨by decide, by decide, by decide,
    C9_amended_precedence_monotone id storeSingle [⟨some "a", some "2", 7⟩]
      (by decide) (by decide) contactQ1 (by decide)⟩

/-- C9 counterexample: the claim as stated is false — record 4 is
created with `linkedId = 3`, re-pointed to 2 by the first merge and to
1 by the second, so its `linkedId` is mutated twice, and neither
mutation is a primary→secondary demotion. -/
theorem C9_counterexample :
    WF (⟨[], 1⟩ : Store) ∧ LinkInv (⟨[], 1⟩ : Store) ∧
    getById (runSeq id ⟨[], 1⟩ seqBuild).contacts 4 =
      some ⟨4, some "p", some "x2", some 3, LinkPrecedence.secondary, 4⟩ ∧
    getById (runSeq id ⟨[], 1⟩ seqMergeOnce).contacts 4 =
      some ⟨4, some "p", some "x2", some 2, LinkPrecedence.secondary, 4⟩ ∧
    getById (runSeq id ⟨[], 1⟩ seqMergeTwice).contacts 4 =
      some ⟨4, some "p", some "x2", some 1, LinkPrecedence.secondary, 4⟩ :=
  ⟨by decide, by decide, rfl, rfl, rfl⟩

/-- C1 counterexample: two primaries tied on `createdAt` where the
smaller id is matched second; the claim's tie-break requires row 1 to
survive, but the code keeps row 2 (the email match precedes the phone
match in the scan) and demotes row 1 under it. -/
theorem C1_counterexample :
    WF storeTied ∧ LinkInv storeTied ∧
    contactP1.createdAt = contactP2.createdAt ∧
    contactP1.id < contactP2.id ∧
    contactP1.linkPrecedence = LinkPrecedence.primary ∧
    contactP2.linkPrecedence = LinkPrecedence.primary ∧
    resolvePrimaries storeTied.contacts
      (dedupById (findMatches storeTied.contacts (some "b") (some "1"))) =
      [contactP2, contactP1] ∧
    identify id storeTied 9 (some "b") (some "1") =
      Except.ok (storeTiedAfter, respTied) ∧
    respTied.primaryId = 2 ∧
    getById storeTiedAfter.contacts 1 =
      some ⟨1, some "1", some "a", some 2, LinkPrecedence.secondary, 5⟩ :=
  ⟨by decide, by decide, rfl, by decide, rfl, rfl, resolve_storeTied_eq,
    identify_storeTied_eq, rfl, rfl⟩

/-- C1 (amended): when the matched records resolve to two or more
groups, the resolver's head — a primary of minimal `createdAt`, ties
broken by the order the records were scanned (email matches before
phone matches), not by smallest id — survives unchanged, and every
other resolved primary is demoted to secondary with `linkedId` the
survivor's id; this happens regardless of whether the observation also
creates a new secondary. -/
theorem C1_merge_demotes_oldest (iter : List String → List String)
    {s : Store} {now : Nat} {e p : Option String} {s' : Store}
    {r : Response} {main : Contact} {rest : List Contact}
    (hw : WF s) (hi : LinkInv s)
    (hres : resolvePrimaries s.contacts
      (dedupById (findMatches s.contacts e p)) = main :: rest)
    (hok : identify iter s now e p = Except.ok (s', r)) :
    r.primaryId = main.id ∧
    getById s'.contacts main.id = some main ∧
    ∀ q ∈ rest, main.createdAt ≤ q.createdAt ∧
      getById s'.contacts q.id = some (demote q main.id) := by
  obtain ⟨hs, hr⟩ := identify_ok_group hres hok
  obtain ⟨hm_mem, _, _, _, hrest, hcr⟩ := resolve_head_facts hw hi hres
  have hsurv : getById (finalContacts s now e p main rest) main.id =
      some main := main_survives hw hi hres
  refine ⟨?_, ?_, ?_⟩
  · rw [hr, groupOutcome_snd]
    exact viewResponse_primaryId hsurv
  · rw [hs, groupOutcome_fst_contacts]
    exact hsurv
  · intro q hq
    refine ⟨hcr q hq, ?_⟩
    have h1 : getById s'.contacts q.id =
        some (mergeOne (rest.map (·.id)) main.id q) := by
      rw [hs, groupOutcome_fst_contacts]
      exact getById_finalContacts hw (hrest q hq).1
    rw [mergeOne_of_absorbed (List.mem_map.2 ⟨q, hq, rfl⟩)] at h1
    exact h1

/-- C1 witness: the tied-primary merge, instantiated. -/
theorem C1_merge_demotes_oldest_witness :
    WF storeTied ∧ LinkInv storeTied ∧
    (respTied.primaryId = contactP2.id ∧
     getById storeTiedAfter.contacts contactP2.id = some contactP2 ∧
     ∀ q ∈ [contactP1], contactP2.createdAt ≤ q.createdAt ∧
       getById storeTiedAfter.contacts q.id =
         some (demote q contactP2.id)) :=
  ⟨by decide, by decide,
    C1_merge_demotes_oldest id (by decide) (by decide) resolve_storeTied_eq
      identify_storeTied_eq⟩

theorem newInfoB_single (s : Store) (e p : Option String) (main : Contact) :
    newInfoB s e p main [] =
      ((truthy e && !((emailsOf
          (main :: childrenOf s.contacts main.id)).contains (e.getD "")))
        || (truthy p && !((phonesOf
          (main :: childrenOf s.contacts main.id)).contains (p.getD "")))) := by
  unfold newInfoB relatedOf contactsToUpdateOf
  rw [List.foldl_nil, List.append_nil]

/-- C3: with exactly one resolved group, if the observation supplies an
email value absent from the group's email set or a phone value absent
from the group's phone set, exactly one new Contact is created — it
carries the full observation, is secondary, and is linked to the target
primary — and the id counter advances; if every supplied value already
occurs in the group, the store is completely unchanged. -/
theorem C3_attach_or_noop (iter : List String → List String) {s : Store}
    {now : Nat} {e p : Option String} {s' : Store} {r : Response}
    {main : Contact}
    (hres : resolvePrimaries s.contacts
      (dedupById (findMatches s.contacts e p)) = [main])
    (hok : identify iter s now e p = Except.ok (s', r)) :
    (((truthy e && !((emailsOf
        (main :: childrenOf s.contacts main.id)).contains (e.getD "")))
      || (truthy p && !((phonesOf
        (main :: childrenOf s.contacts main.id)).contains (p.getD ""))))
        = true →
      s'.contacts = s.contacts ++
        [⟨s.nextId, p, e, some main.id, LinkPrecedence.secondary, now⟩] ∧
      s'.nextId = s.nextId + 1) ∧
    (((truthy e && !((emailsOf
        (main :: childrenOf s.contacts main.id)).contains (e.getD "")))
      || (truthy p && !((phonesOf
        (main :: childrenOf s.contacts main.id)).contains (p.getD ""))))
        = false →
      s' = s) := by
  obtain ⟨hs, _⟩ := identify_ok_group hres hok
  constructor
  · intro hcond
    have hni : newInfoB s e p main [] = true := by
      rw [newInfoB_single]
      exact hcond
    constructor
    · rw [hs, groupOutcome_fst_contacts, finalContacts_true hni]
      simp only [List.map_nil]
      rw [mergeStore_nil]
      rfl
    · rw [hs, groupOutcome_fst_nextId, finalNextId_true hni]
  · intro hcond
    have hni : newInfoB s e p main [] = false := by
      rw [newInfoB_single]
      exact hcond
    have h1 : s' = ⟨s.contacts, s.nextId⟩ :=
      Store_eq_of_parts
        (by
          rw [hs, groupOutcome_fst_contacts, finalContacts_false hni]
          simp only [List.map_nil]
          rw [mergeStore_nil])
        (by rw [hs, groupOutcome_fst_nextId, finalNextId_false hni])
    rw [h1]

/-- C3 witness: attaching a new phone to a one-member group. -/
theorem C3_attach_or_noop_witness :
    (((truthy (some "a") && !((emailsOf
        (contactQ1 :: childrenOf storeSingle.contacts contactQ1.id)).contains
          ((some "a").getD "")))
      || (truthy (some "2") && !((phonesOf
        (contactQ1 :: childrenOf storeSingle.contacts contactQ1.id)).contains
          ((some "2").getD ""))))
        = true →
      storeSingleAfter.contacts = storeSingle.contacts ++
        [⟨storeSingle.nextId, some "2", some "a", some contactQ1.id,
          LinkPrecedence.secondary, 7⟩] ∧
      storeSingleAfter.nextId = storeSingle.nextId + 1) ∧
    (((truthy (some "a") && !((emailsOf
        (contactQ1 :: childrenOf storeSingle.contacts contactQ1.id)).contains
          ((some "a").getD "")))
      || (truthy (some "2") && !((phonesOf
        (contactQ1 :: childrenOf storeSingle.contacts contactQ1.id)).contains
          ((some "2").getD ""))))
        = false →
      storeSingleAfter = storeSingle) :=
  C3_attach_or_noop id resolve_storeSingle_eq identify_storeSingle_eq

theorem identify_group_eq {iter : List String → List String} {s : Store}
    {now : Nat} {e p : Option String} {main : Contact} {rest : List Contact}
    (hsup : (truthy e || truthy p) = true)
    (hu : dedupById (findMatches s.contacts e p) ≠ [])
    (hres : resolvePrimaries s.contacts
      (dedupById (findMatches s.contacts e p)) = main :: rest) :
    identify iter s now e p =
      Except.ok (groupOutcome iter s now e p main rest) := by
  unfold identify
  rw [if_pos hsup, if_neg hu, hres]

/-- C8: submitting the same observation twice against an empty store
creates exactly one record — a primary carrying the observation — on
the first call, and performs no creation or update on the second call:
the store after the second call is identical to the store after the
first. -/
theorem C8_idempotent (iter : List String → List String) (n t t' : Nat)
    (e p : Option String) (hsup : (truthy e || truthy p) = true) :
    ∃ r1 r2,
      identify iter ⟨[], n⟩ t e p = Except.ok
        (⟨[⟨n, p, e, none, LinkPrecedence.primary, t⟩], n + 1⟩, r1) ∧
      identify iter ⟨[⟨n, p, e, none, LinkPrecedence.primary, t⟩], n + 1⟩
          t' e p = Except.ok
        (⟨[⟨n, p, e, none, LinkPrecedence.primary, t⟩], n + 1⟩, r2) := by
  refine ⟨⟨n, listIf e, listIf p, []⟩,
    (groupOutcome iter ⟨[⟨n, p, e, none, LinkPrecedence.primary, t⟩], n + 1⟩
      t' e p ⟨n, p, e, none, LinkPrecedence.primary, t⟩ []).2, ?_, ?_⟩
  · rw [identify_create hsup (findMatches_nil e p)]
    rfl
  · have hu : dedupById
        (findMatches [⟨n, p, e, none, LinkPrecedence.primary, t⟩] e p) =
        [⟨n, p, e, none, LinkPrecedence.primary, t⟩] := by
      rw [findMatches_self rfl rfl]
      cases he : truthy e <;> cases hp : truthy p
      · rw [he, hp] at hsup
        cases hsup
      · simp [dedupById_single]
      · simp [dedupById_single]
      · simp [dedupById_pair_self]
    have hne : dedupById
        (findMatches [⟨n, p, e, none, LinkPrecedence.primary, t⟩] e p) ≠
        [] := by
      rw [hu]
      exact List.cons_ne_nil _ _
    have hres2 : resolvePrimaries
        [⟨n, p, e, none, LinkPrecedence.primary, t⟩]
        (dedupById (findMatches
          [⟨n, p, e, none, LinkPrecedence.primary, t⟩] e p)) =
        [⟨n, p, e, none, LinkPrecedence.primary, t⟩] := by
      rw [hu]
      exact resolvePrimaries_single_primary rfl
    have hident : identify iter
        ⟨[⟨n, p, e, none, LinkPrecedence.primary, t⟩], n + 1⟩ t' e p =
        Except.ok (groupOutcome iter
          ⟨[⟨n, p, e, none, LinkPrecedence.primary, t⟩], n + 1⟩ t' e p
          ⟨n, p, e, none, LinkPrecedence.primary, t⟩ []) :=
      identify_group_eq hsup hne hres2
    have hni : newInfoB
        ⟨[⟨n, p, e, none, LinkPrecedence.primary, t⟩], n + 1⟩ e p
        ⟨n, p, e, none, LinkPrecedence.primary, t⟩ [] = false :=
      newInfoB_self rfl rfl rfl rfl
    have hfst : (groupOutcome iter
        ⟨[⟨n, p, e, none, LinkPrecedence.primary, t⟩], n + 1⟩ t' e p
        ⟨n, p, e, none, LinkPrecedence.primary, t⟩ []).1 =
        ⟨[⟨n, p, e, none, LinkPrecedence.primary, t⟩], n + 1⟩ :=
      Store_eq_of_parts
        (by
          rw [groupOutcome_fst_contacts, finalContacts_false hni]
          simp only [List.map_nil]
          rw [mergeStore_nil])
        (by rw [groupOutcome_fst_nextId, finalNextId_false hni])
    rw [hident]
    exact congrArg Except.ok (Prod.ext hfst rfl)

/-- C8 witness: an email-only observation, submitted twice. -/
theorem C8_idempotent_witness :
    ((truthy (some "a") || truthy none) = true) ∧
    (∃ r1 r2,
      identify id ⟨[], 1⟩ 0 (some "a") none = Except.ok
        (⟨[⟨1, none, some "a", none, LinkPrecedence.primary, 0⟩], 2⟩, r1) ∧
      identify id ⟨[⟨1, none, some "a", none, LinkPrecedence.primary, 0⟩], 2⟩
          1 (some "a") none = Except.ok
        (⟨[⟨1, none, some "a", none, LinkPrecedence.primary, 0⟩], 2⟩, r2)) :=
  ⟨rfl, C8_idempotent id 1 0 1 (some "a") none rfl⟩

theorem getById_append_fresh {s : Store} (hw : WF s) {nc : Contact}
    (hid : nc.id = s.nextId) :
    getById (s.contacts ++ [nc]) s.nextId = some nc := by
  rw [getById_append_of_none (getById_fresh hw.2)]
  simp [getById, List.find?, hid]

/-- C5 counterexample: the response order depends on Python's
hash-based set iteration, which the code never sorts; with the
reversed iteration order the group's emails come out as
`["a", "c", "b"]`, not the claimed primary-then-ascending-id-scan
order `["a", "b", "c"]`. -/
theorem C5_counterexample :
    permOracle List.reverse ∧
    WF storeGroup ∧ LinkInv storeGroup ∧
    identify List.reverse storeGroup 10 (some "a") (some "1") =
      Except.ok (storeGroup, ⟨1, ["a", "c", "b"], ["1"], [2, 3]⟩) ∧
    specOrderedEmails contactG1 [contactG2, contactG3] = ["a", "b", "c"] ∧
    (["a", "c", "b"] : List String) ≠ ["a", "b", "c"] :=
  ⟨fun l => l.reverse_perm, by decide, by decide, rfl, rfl, by decide⟩

/-- C5 (amended): for any legitimate set-iteration order, the response's
emails list is the target primary's own email first (when present),
followed by the group's other distinct email values in an unspecified
(hash-iteration-dependent) order, with no duplicates — so it is always
a permutation of the group's distinct emails, `emails[0]` equals the
primary's own email whenever present, and likewise for phones. -/
theorem C5_emails_view (iter : List String → List String) {s : Store}
    {now : Nat} {e p : Option String} {s' : Store} {r : Response}
    (hperm : permOracle iter) (hw : WF s) (hi : LinkInv s)
    (hok : identify iter s now e p = Except.ok (s', r)) :
    ∃ m, getById s'.contacts r.primaryId = some m ∧
      r.emails.Perm
        (dedupStr (emailsOf (m :: childrenOf s'.contacts m.id))) ∧
      (truthy m.email = true → r.emails.head? = m.email) ∧
      r.emails.Nodup ∧
      r.phones.Perm
        (dedupStr (phonesOf (m :: childrenOf s'.contacts m.id))) ∧
      (truthy m.phoneNumber = true → r.phones.head? = m.phoneNumber) ∧
      r.phones.Nodup := by
  rcases identify_ok_cases hok with ⟨_, hout⟩ | ⟨main, rest, hres, hout⟩
  · have hs : s' = (createOutcome s now e p).1 := congrArg Prod.fst hout
    have hr : r = (createOutcome s now e p).2 := congrArg Prod.snd hout
    refine ⟨⟨s.nextId, p, e, none, LinkPrecedence.primary, now⟩,
      ?_, ?_, ?_, ?_, ?_, ?_, ?_⟩
    · have hpid : r.primaryId = s.nextId := by rw [hr]; rfl
      rw [hpid, hs]
      exact getById_append_fresh hw rfl
    · have hch : childrenOf s'.contacts
          (⟨s.nextId, p, e, none, LinkPrecedence.primary, now⟩ :
            Contact).id = [] := by
        rw [hs]
        exact fresh_no_children_append hw hi rfl
      rw [hch]
      have hre : r.emails = listIf e := by rw [hr]; rfl
      rw [hre, emailsOf_single, dedupStr_listIf]
    · intro ht
      have hre : r.emails = listIf e := by rw [hr]; rfl
      rw [hre]
      exact listIf_head ht
    · have hre : r.emails = listIf e := by rw [hr]; rfl
      rw [hre]
      exact listIf_nodup e
    · have hch : childrenOf s'.contacts
          (⟨s.nextId, p, e, none, LinkPrecedence.primary, now⟩ :
            Contact).id = [] := by
        rw [hs]
        exact fresh_no_children_append hw hi rfl
      rw [hch]
      have hrp : r.phones = listIf p := by rw [hr]; rfl
      rw [hrp, phonesOf_single, dedupStr_listIf]
    · intro ht
      have hrp : r.phones = listIf p := by rw [hr]; rfl
      rw [hrp]
      exact listIf_head ht
    · have hrp : r.phones = listIf p := by rw [hr]; rfl
      rw [hrp]
      exact listIf_nodup p
  · have hs : s' = (groupOutcome iter s now e p main rest).1 :=
      congrArg Prod.fst hout
    have hr : r = (groupOutcome iter s now e p main rest).2 :=
      congrArg Prod.snd hout
    have hsurv : getById (finalContacts s now e p main rest) main.id =
        some main := main_survives hw hi hres
    have hpid : r.primaryId = main.id := by
      rw [hr, groupOutcome_snd]
      exact viewResponse_primaryId hsurv
    have hsc : s'.contacts = finalContacts s now e p main rest := by
      rw [hs, groupOutcome_fst_contacts]
    have hemails : r.emails = assembleList main.email
        (iter (dedupStr (emailsOf (main ::
          childrenOf (finalContacts s now e p main rest) main.id)))) := by
      rw [hr, groupOutcome_snd]
      exact viewResponse_emails hsurv
    have hphones : r.phones = assembleList main.phoneNumber
        (iter (dedupStr (phonesOf (main ::
          childrenOf (finalContacts s now e p main rest) main.id)))) := by
      rw [hr, groupOutcome_snd]
      exact viewResponse_phones hsurv
    have hE := @assemble_spec main.email
      (dedupStr (emailsOf (main ::
        childrenOf (finalContacts s now e p main rest) main.id)))
      (iter (dedupStr (emailsOf (main ::
        childrenOf (finalContacts s now e p main rest) main.id))))
      (hperm _) (dedupStr_nodup _)
      (fun v hv hne' => mem_dedupStr.2 (mem_emailsOf_head hv hne'))
      (fun h => emailsOf_no_empty (mem_dedupStr.1 h))
    have hP := @assemble_spec main.phoneNumber
      (dedupStr (phonesOf (main ::
        childrenOf (finalContacts s now e p main rest) main.id)))
      (iter (dedupStr (phonesOf (main ::
        childrenOf (finalContacts s now e p main rest) main.id))))
      (hperm _) (dedupStr_nodup _)
      (fun v hv hne' => mem_dedupStr.2 (mem_phonesOf_head hv hne'))
      (fun h => phonesOf_no_empty (mem_dedupStr.1 h))
    refine ⟨main, ?_, ?_, ?_, ?_, ?_, ?_, ?_⟩
    · rw [hpid, hsc]
      exact hsurv
    · rw [hemails, hsc]
      exact hE.1
    · intro ht
      rw [hemails]
      exact hE.2.1 ht
    · rw [hemails]
      exact hE.2.2
    · rw [hphones, hsc]
      exact hP.1
    · intro ht
      rw [hphones]
      exact hP.2.1 ht
    · rw [hphones]
      exact hP.2.2

/-- C5 witness: the identity iteration order on the three-email group. -/
theorem C5_emails_view_witness :
    permOracle id ∧ WF storeGroup ∧ LinkInv storeGroup ∧
    (∃ m, getById storeGroup.contacts respGroup.primaryId = some m ∧
      respGroup.emails.Perm
        (dedupStr (emailsOf (m :: childrenOf storeGroup.contacts m.id))) ∧
      (truthy m.email = true → respGroup.emails.head? = m.email) ∧
      respGroup.emails.Nodup ∧
      respGroup.phones.Perm
        (dedupStr (phonesOf (m :: childrenOf storeGroup.contacts m.id))) ∧
      (truthy m.phoneNumber = true → respGroup.phones.head? = m.phoneNumber) ∧
      respGroup.phones.Nodup) :=
  ⟨fun l => List.Perm.refl l, by decide, by decide,
    C5_emails_view id (fun l => List.Perm.refl l) (by decide) (by decide)
      identify_storeGroup_eq⟩
